import Mathlib

/-!
# Verification of the dfelibs named-record tabular serialization subsystem

Shallow embedding of the delimited-text writer/reader
(`dfe/dfe_io_dsv.hpp`: `UntypedDsvWriter`, `DsvWriter`, `DsvReader`) and of
the binary `.npy` writer (`dfe_namedtuple.hpp`: `NpyNamedtupleWriter`),
together with proofs of the specified properties.

File contents (text and binary) are modelled as `List Char` and `List Nat`
(bytes).  Scalar field values are abstracted by per-field printing and
parsing functions; machine integers (`std::size_t`) are `Nat` with explicit
reduction modulo `2 ^ 64` where the C++ counter can overflow.
-/

namespace Dfe

/-- `SIZE_MAX` for the 64-bit `std::size_t` used throughout the library. -/
def SIZE_MAX : Nat := 18446744073709551615

/-- `2 ^ 64`, the modulus of `std::size_t` arithmetic. -/
def SIZE_MOD : Nat := 18446744073709551616

/-- Decimal digits of `n`, most significant first, with structural fuel.
Models `std::to_string` on `std::size_t`/line counters: every value the
library ever converts is below `10 ^ 30` (indeed below `2 ^ 64`), and for
those the fuel of 30 is never exhausted, so this is exact on all reachable
inputs. -/
def toDecimalAux : Nat → Nat → List Char
  | 0, _ => []
  | fuel + 1, n =>
    if n < 10 then [Nat.digitChar n]
    else toDecimalAux fuel (n / 10) ++ [Nat.digitChar (n % 10)]

/-- Decimal representation of a natural number, as `std::to_string` yields. -/
def toDecimal (n : Nat) : List Char := toDecimalAux 30 n

/-- Decimal parsing, used to instantiate abstract field parsers in witnesses. -/
def fromDecimal (s : List Char) : Nat :=
  s.foldl (fun a c => 10 * a + (c.toNat - 48)) 0

/-- Index of the first occurrence of delimiter `d`, as
`std::string::find_first_of` inside `DsvReader::read_line`. -/
def findDelim (d : Char) : List Char → Option Nat
  | [] => none
  | c :: rest => if c = d then some 0 else (findDelim d rest).map (· + 1)

/-- Column splitting of one line, translated from the loop in
`DsvReader::read_line`: starting at `pos`, find the next delimiter; if none
remains the rest of the line is the last column, otherwise the text before
the delimiter is a column and the scan resumes after the delimiter.  The
loop runs only while `pos < line.size()`, so a trailing delimiter ends the
loop without emitting a further (empty) column. -/
def splitColumns (d : Char) (l : List Char) : List (List Char) :=
  if h : l = [] then []
  else
    match findDelim d l with
    | none => [l]
    | some i => l.take i :: splitColumns d (l.drop (i + 1))
termination_by l.length
decreasing_by
  simp only [List.length_drop]
  have : 0 < l.length := List.length_pos.mpr h
  omega

/-- `std::getline` on an in-memory character stream: returns the extracted
line (without the newline), the remaining stream, and whether end-of-input
was reached before a newline (the `eofbit`). -/
def getline : List Char → List Char × List Char × Bool
  | [] => ([], [], true)
  | c :: rest =>
    if c = '\n' then ([], rest, false)
    else
      let (l, r, e) := getline rest
      (c :: l, r, e)

/-- Delimiter-joined columns: the text of one line, without the newline. -/
def joinCols (d : Char) : List (List Char) → List Char
  | [] => []
  | [c] => c
  | c :: rest => c ++ d :: joinCols d rest

/-- One output line of `DsvWriter::write_line`: each value followed by the
delimiter, except the last which is followed by a newline. -/
def write_line (d : Char) : List (List Char) → List Char
  | [] => []
  | [c] => c ++ ['\n']
  | c :: rest => c ++ d :: write_line d rest

/-- Per-field formatting of one record, `std::get<I>` by `std::get<I>`;
`print i v` is the text the stream insertion operator produces for the
value `v` of field `i`. -/
def printRow (print : Nat → α → List Char) : Nat → List α → List (List Char)
  | _, [] => []
  | i, v :: vs => print i v :: printRow print (i + 1) vs

/-- The whole file a `DsvWriter` produces: the header line of field names
followed by one line per appended record. -/
def dsvWriteFile (d : Char) (print : Nat → α → List Char)
    (names : List (List Char)) (rows : List (List α)) : List Char :=
  write_line d names ++ (rows.map (fun r => write_line d (printRow print 0 r))).flatten

/-- State of a `DsvReader`: the unread stream plus the mutable members
`m_line`, `m_columns`, `m_num_lines`, `m_num_records`, `m_num_columns`,
`m_tuple_to_column` and `m_extra_columns`. -/
structure DsvState where
  delim : Char
  stream : List Char
  line : List Char
  columns : List (List Char)
  numLines : Nat
  numRecords : Nat
  numColumns : Nat
  tupleToColumn : List Nat
  extraColumns : List Nat
deriving Repr, DecidableEq

/-- The freshly constructed reader before the header line is consumed:
`m_num_columns` is `SIZE_MAX`, `m_tuple_to_column` is a default-initialized
array of `NamedTuple::N` entries. -/
def initState (d : Char) (content : List Char) (n : Nat) : DsvState :=
  { delim := d, stream := content, line := [], columns := [],
    numLines := 0, numRecords := 0, numColumns := SIZE_MAX,
    tupleToColumn := List.replicate n 0, extraColumns := [] }

/-- `DsvReader::read_line`: read the next line (counting it), report `false`
on end-of-file, otherwise split the line into `m_columns`. -/
def read_line (s : DsvState) : Bool × DsvState :=
  match getline s.stream with
  | (l, rest, eofHit) =>
    if eofHit then
      (false, { s with stream := rest, line := l, numLines := s.numLines + 1 })
    else
      (true,
        { s with
            stream := rest
            line := l
            numLines := s.numLines + 1
            columns := splitColumns s.delim l })

/-- The loop of `DsvReader::parse_record`: tuple entry `i` is parsed from the
column at index `m_tuple_to_column[i]`. -/
def parseRecordAux (parse : Nat → List Char → α) (cols : List (List Char)) :
    Nat → List Nat → List α
  | _, [] => []
  | i, c :: rest => parse i (cols.getD c []) :: parseRecordAux parse cols (i + 1) rest

/-- `DsvReader::parse_record` over the current columns. -/
def parse_record (parse : Nat → List Char → α) (s : DsvState) : List α :=
  parseRecordAux parse s.columns 0 s.tupleToColumn

/-- Result of one `DsvReader::read(record)` call: `false` at end-of-file, a
thrown `std::runtime_error` carrying its message, or success.  Each result
carries the record variable (so that "record unmodified on failure" is
visible) and the post-call reader state. -/
inductive ReadRes (α : Type u) where
  | eof (record : List α) (s : DsvState)
  | err (msg : List Char) (record : List α) (s : DsvState)
  | ok (record : List α) (s : DsvState)
deriving Repr, DecidableEq

/-- `DsvReader::read(record)`: read a line, enforce the per-line column
count against `m_num_columns` (reporting the 1-based line number counted
from the header), parse the record and bump `m_num_records`. -/
def dsvRead (parse : Nat → List Char → α) (record : List α) (s : DsvState) : ReadRes α :=
  match read_line s with
  | (false, s1) => ReadRes.eof record s1
  | (true, s1) =>
    if s1.columns.length < s1.numColumns then
      ReadRes.err ("Too few columns in line ".data ++ toDecimal s1.numLines) record s1
    else if s1.numColumns < s1.columns.length then
      ReadRes.err ("Too many columns in line ".data ++ toDecimal s1.numLines) record s1
    else
      ReadRes.ok (parse_record parse s1) { s1 with numRecords := s1.numRecords + 1 }

/-- Result of `DsvReader::read(record, extra)`. -/
inductive ReadERes (α : Type u) (β : Type v) where
  | eof (record : List α) (extra : List β) (s : DsvState)
  | err (msg : List Char) (record : List α) (extra : List β) (s : DsvState)
  | ok (record : List α) (extra : List β) (s : DsvState)

/-- `DsvReader::read(record, extra)`: forward to `read(record)`; on success
re-fill `extra` with the parsed values of the extra columns of the current
line, in file order. -/
def dsvReadE (parse : Nat → List Char → α) (parseE : List Char → β)
    (record : List α) (extra : List β) (s : DsvState) : ReadERes α β :=
  match dsvRead parse record s with
  | ReadRes.eof r s' => ReadERes.eof r extra s'
  | ReadRes.err m r s' => ReadERes.err m r extra s'
  | ReadRes.ok r s' =>
    ReadERes.ok r (s'.extraColumns.map (fun i => parseE (s'.columns.getD i []))) s'

/-- First index of column text `x` in a list of column names, as
`std::find` over `names` / `m_columns`. -/
def firstIdx (x : List Char) : List (List Char) → Option Nat
  | [] => none
  | c :: rest => if c = x then some 0 else (firstIdx x rest).map (· + 1)

/-- Number of occurrences of a column name. -/
def countOcc (x : List Char) : List (List Char) → Nat
  | [] => 0
  | c :: rest => (if c = x then 1 else 0) + countOcc x rest

/-- The first check of `DsvReader::parse_header`: the first tuple name that
does not occur among the header columns, if any. -/
def firstMissing (columns : List (List Char)) : List (List Char) → Option (List Char)
  | [] => none
  | n :: rest => if (firstIdx n columns).isSome then firstMissing columns rest else some n

/-- The second loop of `DsvReader::parse_header`: scan the header columns in
order; a column that is a tuple name records the mapping
`m_tuple_to_column[tuple index] := column index`, any other column index is
appended to `m_extra_columns`. -/
def parseHeaderLoop (names : List (List Char)) :
    List Nat → List Nat → Nat → List (List Char) → List Nat × List Nat
  | t2c, ex, _, [] => (t2c, ex)
  | t2c, ex, i, c :: rest =>
    match firstIdx c names with
    | some j => parseHeaderLoop names (t2c.set j i) ex (i + 1) rest
    | none => parseHeaderLoop names t2c (ex ++ [i]) (i + 1) rest

/-- The indices (in file order) of header columns that are not tuple names:
the value `parse_header` leaves in `m_extra_columns`. -/
def extrasOf (names : List (List Char)) : Nat → List (List Char) → List Nat
  | _, [] => []
  | i, c :: rest =>
    if (firstIdx c names).isSome then extrasOf names (i + 1) rest
    else i :: extrasOf names (i + 1) rest

/-- `DsvReader::parse_header` on the current columns. -/
def parse_header (names : List (List Char)) (s : DsvState) : Except (List Char) DsvState :=
  match firstMissing s.columns names with
  | some n => Except.error ("Missing header column '".data ++ n ++ "'".data)
  | none =>
    match parseHeaderLoop names s.tupleToColumn s.extraColumns 0 s.columns with
    | (t2c, ex) =>
      Except.ok
        { s with
            tupleToColumn := t2c
            extraColumns := ex
            numColumns := s.columns.length }

/-- The `DsvReader` constructor: read the header line (an error if none),
then either verify it and establish the column mapping, or assume row
content is positionally identical to the tuple. -/
def dsvOpen (names : List (List Char)) (d : Char) (content : List Char)
    (verifyHeader : Bool) : Except (List Char) DsvState :=
  match read_line (initState d content names.length) with
  | (false, _) => Except.error "Could not read header".data
  | (true, s1) =>
    if verifyHeader then parse_header names s1
    else
      Except.ok
        { s1 with
            numColumns := names.length
            tupleToColumn := List.range names.length }

/-- Reading records in a loop until `read` returns `false` or throws, with
structural fuel.  One unit of fuel per successful read always suffices
because every successful read consumes at least the newline of its line. -/
def readAllAux (parse : Nat → List Char → α) :
    Nat → List α → DsvState → List (List α) × Option (List Char) × DsvState
  | 0, _, s => ([], none, s)
  | fuel + 1, record, s =>
    match dsvRead parse record s with
    | ReadRes.eof _ s' => ([], none, s')
    | ReadRes.err m _ s' => ([], some m, s')
    | ReadRes.ok r s' =>
      match readAllAux parse fuel r s' with
      | (rs, e, sf) => (r :: rs, e, sf)

/-- All records obtained by calling `read(record)` until it returns `false`
(clean end, second component `none`) or throws (second component carries
the message); also returns the final reader state. -/
def readAll (parse : Nat → List Char → α) (record : List α) (s : DsvState) :
    List (List α) × Option (List Char) × DsvState :=
  readAllAux parse (s.stream.length + 1) record s

/-- `readAll` for `read(record, extra)`: the first component pairs each
record with the extra-column values of its line. -/
def readAllEAux (parse : Nat → List Char → α) (parseE : List Char → β) :
    Nat → List α → List β → DsvState →
      List (List α × List β) × Option (List Char) × DsvState
  | 0, _, _, s => ([], none, s)
  | fuel + 1, record, extra, s =>
    match dsvReadE parse parseE record extra s with
    | ReadERes.eof _ _ s' => ([], none, s')
    | ReadERes.err m _ _ s' => ([], some m, s')
    | ReadERes.ok r e s' =>
      match readAllEAux parse parseE fuel r e s' with
      | (rs, er, sf) => ((r, e) :: rs, er, sf)

/-- Loop driver for `read(record, extra)`. -/
def readAllE (parse : Nat → List Char → α) (parseE : List Char → β)
    (record : List α) (extra : List β) (s : DsvState) :
    List (List α × List β) × Option (List Char) × DsvState :=
  readAllEAux parse parseE (s.stream.length + 1) record extra s

/-- The record the spec expects a verified-mode reader to deliver: field `i`
takes its value from the column whose header name matches the `i`-th tuple
name, wherever that column sits.  (Spec-side definition, compared against
`parse_record` over the mapping the reader actually builds.) -/
def matchedRecord (parse : Nat → List Char → α) (hcols rowcols : List (List Char)) :
    Nat → List (List Char) → List α
  | _, [] => []
  | i, n :: rest =>
    parse i (rowcols.getD ((firstIdx n hcols).getD 0) []) ::
      matchedRecord parse hcols rowcols (i + 1) rest

/-- Indexed pointwise relation between two lists, used to compare the
read-back rows with the written rows field by field. -/
inductive Forall₂Idx (R : Nat → α → β → Prop) : Nat → List α → List β → Prop
  | nil (i : Nat) : Forall₂Idx R i [] []
  | cons (i : Nat) (a : α) (b : β) (as : List α) (bs : List β) :
      R i a b → Forall₂Idx R (i + 1) as bs → Forall₂Idx R i (a :: as) (b :: bs)

/-- One argument of `UntypedDsvWriter::append`: either a scalar (one column,
already formatted) or a `std::vector` that is unpacked into one column per
element. -/
inductive UArg where
  | scalar (text : List Char)
  | vec (texts : List (List Char))

/-- `UntypedDsvWriter::write` for one argument: the bytes it inserts into
the temporary line buffer and the number of columns it reports as written.
Vector elements are separated by the delimiter. -/
def writeUArg (d : Char) : UArg → List Char × Nat
  | UArg.scalar t => (t, 1)
  | UArg.vec ts => (joinCols d ts, ts.length)

/-- The body of `UntypedDsvWriter::append`'s pack expansion: the first
argument is written bare, every further argument is preceded by the
delimiter; the total written-column count is accumulated. -/
def buildULine (d : Char) : List UArg → List Char × Nat
  | [] => ([], 0)
  | [a] => writeUArg d a
  | a :: rest =>
    match writeUArg d a, buildULine d rest with
    | (b, n), (b2, n2) => (b ++ d :: b2, n + n2)

/-- State of an `UntypedDsvWriter`: the file contents and the column count
fixed at construction. -/
structure UWState where
  file : List Char
  numColumns : Nat
deriving Repr, DecidableEq

/-- `UntypedDsvWriter::append`: the row is assembled in a temporary buffer;
if the written-column total mismatches the fixed column count an
`std::invalid_argument` is thrown (first component) and the file is not
touched; only otherwise is the buffered line flushed to the file. -/
def untyped_append (d : Char) (s : UWState) (args : List UArg) :
    Option (List Char) × UWState :=
  match buildULine d args with
  | (body, total) =>
    if total < s.numColumns then (some "Not enough columns".data, s)
    else if s.numColumns < total then (some "Too many columns".data, s)
    else (none, { s with file := s.file ++ body ++ ['\n'] })

/-- The `UntypedDsvWriter` constructor: reject an empty column list, then
write the column names as the header row through `append`. -/
def untypedOpen (d : Char) (columns : List (List Char)) :
    Option (List Char) × UWState :=
  let s0 : UWState := { file := [], numColumns := columns.length }
  if columns.length = 0 then (some "No columns were specified".data, s0)
  else untyped_append d s0 [UArg.vec columns]

/-- Bytes of an ASCII string literal. -/
def strB (s : String) : List Nat := s.data.map Char.toNat

/-- One field of the record descriptor as the `.npy` writer sees it: the
member name, the dtype code `TypeInfo<T>::dtype_code()` and the byte width
`sizeof(T)` of the member. -/
structure NpyField where
  name : List Nat
  code : List Nat
  width : Nat
deriving Repr, DecidableEq

/-- The loop body of `dtypes_description`: `('name', 'code')` pairs joined
by `", "`. -/
def descrList : List NpyField → List Nat
  | [] => []
  | [f] => strB "('" ++ f.name ++ strB "', '" ++ f.code ++ strB "')"
  | f :: rest =>
    strB "('" ++ f.name ++ strB "', '" ++ f.code ++ strB "')" ++ strB ", " ++
      descrList rest

/-- `dtypes_description`: the bracketed list of `(name, dtype)` pairs. -/
def dtypes_description (fields : List NpyField) : List Nat :=
  strB "[" ++ descrList fields ++ strB "]"

/-- The dictionary text assembled in `NpyNamedtupleWriter::write_header`. -/
def npyDict (descr : List Nat) (numTuples : Nat) : List Nat :=
  strB "\x7b" ++ (strB "'descr': " ++ descr ++ strB ", ") ++
    strB "'fortran_order': False, " ++
    (strB "'shape': (" ++ (toDecimal numTuples).map Char.toNat ++ strB ",), ") ++
    strB "\x7d"

/-- The padding loop `while (((header.size() + 1) % 16) != 0) header += ' ';`
of `write_header`: pad with spaces until the header-plus-newline size is a
multiple of 16. -/
def pad16 (l : List Nat) : List Nat :=
  if (l.length + 1) % 16 ≠ 0 then pad16 (l ++ [32]) else l
termination_by (16 - (l.length + 1) % 16) % 16
decreasing_by
  rename_i hne
  simp only [List.length_append, List.length_cons, List.length_nil]
  omega

/-- The re-padding loop
`while (header.size() < m_fixed_header_length) header += ' ';`. -/
def padTo (l : List Nat) (n : Nat) : List Nat :=
  if l.length < n then padTo (l ++ [32]) n else l
termination_by n - l.length
decreasing_by
  simp only [List.length_append, List.length_cons, List.length_nil]
  omega

/-- The header bytes before padding: magic, version, the two placeholder
length bytes `0xAF 0xFE`, and the dictionary text. -/
def npyBase (descr : List Nat) (numTuples : Nat) : List Nat :=
  [0x93] ++ strB "NUMPY" ++ [0x01, 0x00, 0xAF, 0xFE] ++ npyDict descr numTuples

/-- The header bytes `NpyNamedtupleWriter::write_header` assembles for a
given descriptor text, fixed header length (0 before the first write) and
tuple count, together with the updated `m_fixed_header_length`: magic and
version, the two placeholder length bytes, the dictionary text, space
padding to 16-byte alignment and, when the header length is already fixed,
up to that fixed length, the trailing newline, and finally the patch of
bytes 8 and 9 with the 16-bit little-endian header length (bytes from
offset 10 through the newline), each byte a truncating `char` cast. -/
def buildHeader (descr : List Nat) (fixedLen : Nat) (numTuples : Nat) :
    List Nat × Nat :=
  let base := npyBase descr numTuples
  let padded := pad16 base
  let fixed := if fixedLen = 0 then padded.length else fixedLen
  let padded2 := if fixedLen = 0 then padded else padTo padded fixedLen
  let full := padded2 ++ [10]
  let headerLength := full.length - 10
  ((full.set 8 (headerLength % 256)).set 9 ((headerLength >>> 8) % 256), fixed)

/-- Overwrite the bytes of `file` starting at offset `pos` with `data`,
extending the file if the write runs past its end (the semantics of
`seekp`/`write` on an `std::ofstream`; all writes the npy writer performs
start at an offset that is at most the current file size). -/
def writeAt (file : List Nat) (pos : Nat) (data : List Nat) : List Nat :=
  file.take pos ++ data ++ file.drop (pos + data.length)

/-- State of an `NpyNamedtupleWriter`: file bytes, put position,
`m_fixed_header_length` and `m_num_tuples` (a 64-bit `std::size_t`). -/
structure NpyState where
  file : List Nat
  pos : Nat
  fixedHeaderLength : Nat
  numTuples : Nat
deriving Repr, DecidableEq

/-- `NpyNamedtupleWriter::write_header`: seek to offset 0 and write the
assembled header, fixing `m_fixed_header_length` on the first call. -/
def npyWriteHeader (descr : List Nat) (s : NpyState) (numTuples : Nat) : NpyState :=
  match buildHeader descr s.fixedHeaderLength numTuples with
  | (h, fixed) =>
    { s with
        file := writeAt s.file 0 h
        pos := h.length
        fixedHeaderLength := fixed }

/-- The `NpyNamedtupleWriter` constructor: write a header sized for the
largest possible tuple count (fixing the header length), then immediately
rewrite it with a count of zero. -/
def npyOpen (fields : List NpyField) : NpyState :=
  npyWriteHeader (dtypes_description fields)
    (npyWriteHeader (dtypes_description fields)
      { file := [], pos := 0, fixedHeaderLength := 0, numTuples := 0 } SIZE_MAX) 0

/-- `NpyNamedtupleWriter::write_record`: write each field's fixed-width
binary representation, in field order, at the current put position. -/
def write_record (s : NpyState) (fieldBytes : List (List Nat)) : NpyState :=
  fieldBytes.foldl
    (fun st b => { st with file := writeAt st.file st.pos b, pos := st.pos + b.length }) s

/-- `NpyNamedtupleWriter::append`: write the record, then increment the
64-bit tuple counter. -/
def npyAppend (s : NpyState) (fieldBytes : List (List Nat)) : NpyState :=
  let s' := write_record s fieldBytes
  { s' with numTuples := (s'.numTuples + 1) % SIZE_MOD }

/-- The `NpyNamedtupleWriter` destructor: patch the header with the final
tuple count. -/
def npyClose (fields : List NpyField) (s : NpyState) : NpyState :=
  npyWriteHeader (dtypes_description fields) s s.numTuples

/-- The byte size of one binary record: the sum of the field widths, laid
out consecutively with no padding. -/
def npyRecordSize (fields : List NpyField) : Nat :=
  (fields.map NpyField.width).sum

/-- The header the writer produces for `numTuples` rows once the header
length has been fixed by construction. -/
def npyHeaderAt (fields : List NpyField) (numTuples : Nat) : List Nat :=
  (buildHeader (dtypes_description fields) (npyOpen fields).fixedHeaderLength
    numTuples).1

/-! ### Basic facts about line reading and splitting -/

theorem read_line_fields (s : DsvState) (b : Bool) (s1 : DsvState)
    (h : read_line s = (b, s1)) :
    s1.delim = s.delim ∧ s1.numRecords = s.numRecords ∧
      s1.numColumns = s.numColumns ∧ s1.tupleToColumn = s.tupleToColumn ∧
      s1.extraColumns = s.extraColumns ∧ s1.numLines = s.numLines + 1 := by
  unfold read_line at h
  rcases hg : getline s.stream with ⟨l, r, e⟩
  rw [hg] at h
  by_cases he : e = true
  · subst he
    simp only [if_true, Prod.mk.injEq] at h
    rw [← h.2]
    simp
  · simp only [he, if_false, Prod.mk.injEq, Bool.false_eq_true] at h
    rw [← h.2]
    simp

theorem dsvRead_err_effects (parse : Nat → List Char → α) (rec : List α)
    (s : DsvState) (m : List Char) (rec' : List α) (s' : DsvState)
    (h : dsvRead parse rec s = ReadRes.err m rec' s') :
    rec' = rec ∧ s'.numRecords = s.numRecords := by
  unfold dsvRead at h
  rcases hr : read_line s with ⟨b, s1⟩
  have hf := read_line_fields s b s1 hr
  rw [hr] at h
  cases b
  · simp at h
  · simp only at h
    split at h
    · simp only [ReadRes.err.injEq] at h
      refine ⟨h.2.1.symm, ?_⟩
      rw [← h.2.2, hf.2.1]
    · split at h
      · simp only [ReadRes.err.injEq] at h
        refine ⟨h.2.1.symm, ?_⟩
        rw [← h.2.2, hf.2.1]
      · simp at h

theorem dsvRead_ok_effects (parse : Nat → List Char → α) (rec : List α)
    (s : DsvState) (r : List α) (s' : DsvState)
    (h : dsvRead parse rec s = ReadRes.ok r s') :
    s'.numRecords = s.numRecords + 1 := by
  unfold dsvRead at h
  rcases hr : read_line s with ⟨b, s1⟩
  have hf := read_line_fields s b s1 hr
  rw [hr] at h
  cases b
  · simp at h
  · simp only at h
    split at h
    · simp at h
    · split at h
      · simp at h
      · simp only [ReadRes.ok.injEq] at h
        rw [← h.2]
        simp only []
        rw [hf.2.1]

theorem dsvRead_eof_effects (parse : Nat → List Char → α) (rec : List α)
    (s : DsvState) (rec' : List α) (s' : DsvState)
    (h : dsvRead parse rec s = ReadRes.eof rec' s') :
    rec' = rec ∧ s'.numRecords = s.numRecords := by
  unfold dsvRead at h
  rcases hr : read_line s with ⟨b, s1⟩
  have hf := read_line_fields s b s1 hr
  rw [hr] at h
  cases b
  · simp only [ReadRes.eof.injEq] at h
    exact ⟨h.1.symm, by rw [← h.2, hf.2.1]⟩
  · simp only at h
    split at h
    · simp at h
    · split at h
      · simp at h
      · simp at h

theorem readAllAux_numRecords (parse : Nat → List Char → α) :
    ∀ (fuel : Nat) (rec : List α) (s : DsvState),
      (readAllAux parse fuel rec s).2.2.numRecords =
        s.numRecords + (readAllAux parse fuel rec s).1.length := by
  intro fuel
  induction fuel with
  | zero => intro rec s; simp [readAllAux]
  | succ n ih =>
    intro rec s
    unfold readAllAux
    rcases hd : dsvRead parse rec s with ⟨rec', s'⟩ | ⟨m, rec', s'⟩ | ⟨r, s'⟩
    · simpa using (dsvRead_eof_effects parse rec s rec' s' hd).2
    · simpa using (dsvRead_err_effects parse rec s m rec' s' hd).2
    · have hn := dsvRead_ok_effects parse rec s r s' hd
      rcases hrest : readAllAux parse n r s' with ⟨rs, e, sf⟩
      have := ih r s'
      rw [hrest] at this
      simp only [hrest]
      simp only at this
      rw [this, hn]
      simp
      omega

theorem findDelim_not_mem (d : Char) (l : List Char) (h : d ∉ l) :
    findDelim d l = none := by
  induction l with
  | nil => rfl
  | cons c rest ih =>
    simp only [List.mem_cons, not_or] at h
    simp [findDelim, Ne.symm h.1, ih h.2]

theorem findDelim_append (d : Char) (a rest : List Char) (ha : d ∉ a) :
    findDelim d (a ++ d :: rest) = some a.length := by
  induction a with
  | nil => simp [findDelim]
  | cons c t ih =>
    simp only [List.mem_cons, not_or] at ha
    simp [findDelim, Ne.symm ha.1, ih ha.2]

theorem splitColumns_append (d : Char) (a rest : List Char) (ha : d ∉ a) :
    splitColumns d (a ++ d :: rest) = a :: splitColumns d rest := by
  rw [splitColumns]
  have hne : ¬(a ++ d :: rest = []) := by simp
  rw [dif_neg hne, findDelim_append d a rest ha]
  have h1 : (a ++ d :: rest).take a.length = a := by
    simpa using List.take_left a (d :: rest)
  have h2 : (a ++ d :: rest).drop (a.length + 1) = rest := by
    have h3 : a ++ d :: rest = (a ++ [d]) ++ rest := by simp
    rw [h3]
    have hlen : a.length + 1 = (a ++ [d]).length := by simp
    rw [hlen]
    exact List.drop_left (a ++ [d]) rest
  dsimp only
  rw [h1, h2]

theorem splitColumns_nil (d : Char) : splitColumns d [] = [] := by
  rw [splitColumns]
  simp

theorem splitColumns_single (d : Char) (c : List Char) (hd : d ∉ c)
    (hne : c ≠ []) : splitColumns d c = [c] := by
  rw [splitColumns, dif_neg hne, findDelim_not_mem d c hd]

/-- C5 counterexample: in `DsvReader::read_line`, a delimiter that is the
very last character of a line does **not** produce a trailing empty-string
column — the line `"a,"` splits into the single column `"a"`, not into two
columns. -/
theorem splitColumns_trailing_delim_dropped :
    splitColumns ',' ['a', ','] = [['a']] ∧
      (splitColumns ',' ['a', ',']).length ≠ 2 := by
  have h : splitColumns ',' ['a', ','] = [['a']] := by
    simp [splitColumns, findDelim]
  exact ⟨h, by simp [h]⟩

/-- C5 (amended): in the canonical reader (`DsvReader::read_line`), an empty
field between two consecutive delimiters and a delimiter as the very first
character of a line each yield an empty-string column that counts toward
the line's column count, and neither is an error; a delimiter as the very
last character of a line is not an error either, but its empty field is
dropped: the line splits as if it ended before the trailing delimiter. -/
theorem splitColumns_empty_column_policy (d : Char) (a b : List Char)
    (ha : d ∉ a) :
    splitColumns d (a ++ d :: d :: b) = a :: [] :: splitColumns d b ∧
      splitColumns d (d :: b) = [] :: splitColumns d b ∧
      splitColumns d (a ++ [d]) = [a] := by
  have hlead : ∀ t : List Char, splitColumns d (d :: t) = [] :: splitColumns d t := by
    intro t
    have := splitColumns_append d [] t (by simp)
    simpa using this
  refine ⟨?_, hlead b, ?_⟩
  · rw [splitColumns_append d a (d :: b) ha, hlead b]
  · have := splitColumns_append d a [] ha
    simpa [splitColumns_nil] using this

/-- Witness for the amended C5 statement at a concrete delimiter and
concrete column texts. -/
theorem splitColumns_empty_column_policy_witness :
    splitColumns ',' (['x'] ++ ',' :: ',' :: ['y']) =
        ['x'] :: [] :: splitColumns ',' ['y'] ∧
      splitColumns ',' (',' :: ['y']) = [] :: splitColumns ',' ['y'] ∧
      splitColumns ',' (['x'] ++ [',']) = [['x']] :=
  splitColumns_empty_column_policy ',' ['x'] ['y'] (by decide)

/-- C9: if the expanded column count of an `UntypedDsvWriter::append` call
differs from the count fixed at construction, the call throws (reporting
which direction the mismatch goes) and the file contents are exactly what
they were before the call: the row only ever existed in the temporary
line buffer. -/
theorem untyped_append_mismatch (d : Char) (s : UWState) (args : List UArg)
    (h : (buildULine d args).2 ≠ s.numColumns) :
    ∃ msg, untyped_append d s args = (some msg, s) ∧
      ((buildULine d args).2 < s.numColumns → msg = "Not enough columns".data) ∧
      (s.numColumns < (buildULine d args).2 → msg = "Too many columns".data) := by
  unfold untyped_append
  rcases hb : buildULine d args with ⟨body, total⟩
  rw [hb] at h
  simp only at h ⊢
  rcases Nat.lt_or_ge total s.numColumns with hlt | hge
  · refine ⟨"Not enough columns".data, ?_, ?_, ?_⟩
    · rw [if_pos hlt]
    · intro _; rfl
    · intro hgt; omega
  · have hgt : s.numColumns < total := by omega
    refine ⟨"Too many columns".data, ?_, ?_, ?_⟩
    · rw [if_neg (by omega), if_pos hgt]
    · intro hlt; omega
    · intro _; rfl

/-- Witness for C9: a one-column row against a two-column writer. -/
theorem untyped_append_mismatch_witness :
    ∃ msg,
      untyped_append ',' ⟨['h'], 2⟩ [UArg.scalar ['a']] = (some msg, ⟨['h'], 2⟩) ∧
        ((buildULine ',' [UArg.scalar ['a']]).2 < 2 →
          msg = "Not enough columns".data) ∧
        (2 < (buildULine ',' [UArg.scalar ['a']]).2 →
          msg = "Too many columns".data) :=
  untyped_append_mismatch ',' ⟨['h'], 2⟩ [UArg.scalar ['a']] (by decide)

/-- C10: `DsvReader::read(record)` leaves both the record argument and
`m_num_records` unchanged whenever it throws on a column-count mismatch or
reports end-of-file, increments `m_num_records` by exactly one on each
successful read, and therefore after any read loop `m_num_records` counts
exactly the successfully parsed records. -/
theorem dsvRead_record_counter (parse : Nat → List Char → α) :
    (∀ (rec : List α) (s : DsvState) m rec' s',
        dsvRead parse rec s = ReadRes.err m rec' s' →
          rec' = rec ∧ s'.numRecords = s.numRecords) ∧
      (∀ (rec : List α) (s : DsvState) rec' s',
        dsvRead parse rec s = ReadRes.ok rec' s' →
          s'.numRecords = s.numRecords + 1) ∧
      (∀ (rec : List α) (s : DsvState) rec' s',
        dsvRead parse rec s = ReadRes.eof rec' s' →
          rec' = rec ∧ s'.numRecords = s.numRecords) ∧
      (∀ (rec : List α) (s : DsvState),
        (readAll parse rec s).2.2.numRecords =
          s.numRecords + (readAll parse rec s).1.length) := by
  refine ⟨?_, ?_, ?_, ?_⟩
  · intro rec s m rec' s' h
    exact dsvRead_err_effects parse rec s m rec' s' h
  · intro rec s rec' s' h
    exact dsvRead_ok_effects parse rec s rec' s' h
  · intro rec s rec' s' h
    exact dsvRead_eof_effects parse rec s rec' s' h
  · intro rec s
    exact readAllAux_numRecords parse (s.stream.length + 1) rec s

/-- Witness for C10 at a concrete reader state whose next line has too few
columns: the record stays `[]` and `m_num_records` stays put. -/
theorem dsvRead_record_counter_witness :
    ([] : List Nat) = [] ∧
      (⟨',', [], ['a'], [['a']], 1, 0, 2, [0, 0], []⟩ : DsvState).numRecords =
        (⟨',', ['a', '\n'], [], [], 0, 0, 2, [0, 0], []⟩ : DsvState).numRecords :=
  (dsvRead_record_counter (fun _ s => fromDecimal s)).1 []
    ⟨',', ['a', '\n'], [], [], 0, 0, 2, [0, 0], []⟩
    ("Too few columns in line ".data ++ toDecimal 1) []
    ⟨',', [], ['a'], [['a']], 1, 0, 2, [0, 0], []⟩
    (by simp [dsvRead, read_line, getline, splitColumns, findDelim])

/-! ### Writer lines and their round trip through `getline`/`splitColumns` -/

theorem write_line_eq_join (d : Char) (cols : List (List Char)) (h : cols ≠ []) :
    write_line d cols = joinCols d cols ++ ['\n'] := by
  induction cols with
  | nil => exact absurd rfl h
  | cons c rest ih =>
    cases rest with
    | nil => rfl
    | cons c2 r2 =>
      simp only [write_line, joinCols, ih (by simp)]
      simp

theorem mem_joinCols (d : Char) (cols : List (List Char)) (x : Char)
    (h : x ∈ joinCols d cols) : x = d ∨ ∃ c ∈ cols, x ∈ c := by
  induction cols with
  | nil => simp [joinCols] at h
  | cons c rest ih =>
    cases rest with
    | nil =>
      simp only [joinCols] at h
      exact Or.inr ⟨c, by simp, h⟩
    | cons c2 r2 =>
      simp only [joinCols, List.mem_append, List.mem_cons] at h
      rcases h with hc | hd | hj
      · exact Or.inr ⟨c, by simp, hc⟩
      · exact Or.inl hd
      · rcases ih hj with hx | ⟨c3, hc3, hx⟩
        · exact Or.inl hx
        · exact Or.inr ⟨c3, by simp [hc3], hx⟩

theorem getline_append (j s : List Char) (h : '\n' ∉ j) :
    getline (j ++ '\n' :: s) = (j, s, false) := by
  induction j with
  | nil => simp [getline]
  | cons c t ih =>
    simp only [List.mem_cons, not_or] at h
    have hc : ¬ c = '\n' := fun hh => h.1 hh.symm
    simp only [List.cons_append, getline, if_neg hc, List.append_eq, ih h.2]

theorem splitColumns_join (d : Char) (cols : List (List Char))
    (hd : ∀ c ∈ cols, d ∉ c) (hne : ∀ c ∈ cols, c ≠ []) (h0 : cols ≠ []) :
    splitColumns d (joinCols d cols) = cols := by
  induction cols with
  | nil => exact absurd rfl h0
  | cons c rest ih =>
    cases rest with
    | nil =>
      simp only [joinCols]
      exact splitColumns_single d c (hd c (by simp)) (hne c (by simp))
    | cons c2 r2 =>
      simp only [joinCols]
      rw [splitColumns_append d c (joinCols d (c2 :: r2)) (hd c (by simp))]
      rw [ih (fun x hx => hd x (by simp [hx])) (fun x hx => hne x (by simp [hx]))
        (by simp)]

/-- Effect of `read_line` on a stream whose next line carries the given
delimiter-free, newline-free, nonempty columns. -/
theorem read_line_data (s : DsvState) (cols : List (List Char))
    (rest : List Char)
    (hstream : s.stream = write_line s.delim cols ++ rest)
    (hne : cols ≠ [])
    (hok : ∀ c ∈ cols, c ≠ [] ∧ s.delim ∉ c ∧ '\n' ∉ c)
    (hd : s.delim ≠ '\n') :
    read_line s = (true,
      { s with
          stream := rest
          line := joinCols s.delim cols
          numLines := s.numLines + 1
          columns := cols }) := by
  have hnl : '\n' ∉ joinCols s.delim cols := by
    intro hmem
    rcases mem_joinCols s.delim cols '\n' hmem with hx | ⟨c, hc, hx⟩
    · exact hd hx.symm
    · exact (hok c hc).2.2 hx
  have hg : getline s.stream = (joinCols s.delim cols, rest, false) := by
    rw [hstream, write_line_eq_join s.delim cols hne, List.append_assoc]
    exact getline_append (joinCols s.delim cols) rest hnl
  unfold read_line
  rw [hg]
  simp only [Bool.false_eq_true, if_false, Prod.mk.injEq, true_and]
  rw [splitColumns_join s.delim cols (fun c hc => (hok c hc).2.1)
    (fun c hc => (hok c hc).1) hne]

/-- One successful `read`: the stream advances past the line, the parsed
record is the mapped parse of the line's columns, and the counters bump. -/
theorem dsvRead_data_ok (parse : Nat → List Char → α) (rec : List α)
    (s : DsvState) (cols : List (List Char)) (rest : List Char)
    (hstream : s.stream = write_line s.delim cols ++ rest)
    (hne : cols ≠ [])
    (hok : ∀ c ∈ cols, c ≠ [] ∧ s.delim ∉ c ∧ '\n' ∉ c)
    (hd : s.delim ≠ '\n')
    (hlen : cols.length = s.numColumns) :
    dsvRead parse rec s = ReadRes.ok (parseRecordAux parse cols 0 s.tupleToColumn)
      { s with
          stream := rest
          line := joinCols s.delim cols
          numLines := s.numLines + 1
          columns := cols
          numRecords := s.numRecords + 1 } := by
  unfold dsvRead
  rw [read_line_data s cols rest hstream hne hok hd]
  simp only [hlen.symm, lt_irrefl, if_false, parse_record]

/-- One failing `read`: a line whose column count mismatches the fixed
count throws, naming the direction of the mismatch and the 1-based line
number (the header counted as line 1). -/
theorem dsvRead_data_err (parse : Nat → List Char → α) (rec : List α)
    (s : DsvState) (cols : List (List Char)) (rest : List Char)
    (hstream : s.stream = write_line s.delim cols ++ rest)
    (hne : cols ≠ [])
    (hok : ∀ c ∈ cols, c ≠ [] ∧ s.delim ∉ c ∧ '\n' ∉ c)
    (hd : s.delim ≠ '\n')
    (hlen : cols.length ≠ s.numColumns) :
    dsvRead parse rec s = ReadRes.err
      ((if cols.length < s.numColumns then "Too few columns in line ".data
        else "Too many columns in line ".data) ++ toDecimal (s.numLines + 1))
      rec
      { s with
          stream := rest
          line := joinCols s.delim cols
          numLines := s.numLines + 1
          columns := cols } := by
  unfold dsvRead
  rw [read_line_data s cols rest hstream hne hok hd]
  rcases Nat.lt_or_ge cols.length s.numColumns with hlt | hge
  · simp only [hlt, if_pos, if_true]
  · have hgt : s.numColumns < cols.length := by omega
    simp only [Nat.not_lt_of_gt hgt, if_neg, if_false, hgt, if_true,
      Nat.not_lt.mpr hge]

theorem write_line_length_pos (d : Char) (cols : List (List Char))
    (h : cols ≠ []) : 0 < (write_line d cols).length := by
  rw [write_line_eq_join d cols h]
  simp

/-- A reader positioned at the start of well-formed data lines reads them
all back: one record per line, each the `parse_record` of that line's
columns through the established column mapping, ending cleanly. -/
theorem readAllAux_rows (parse : Nat → List Char → α) :
    ∀ (rows : List (List (List Char))) (fuel : Nat) (rec : List α)
      (s : DsvState),
      s.stream = (rows.map (fun r => write_line s.delim r)).flatten →
      s.stream.length < fuel →
      (∀ r ∈ rows, r.length = s.numColumns ∧ r ≠ [] ∧
        ∀ c ∈ r, c ≠ [] ∧ s.delim ∉ c ∧ '\n' ∉ c) →
      s.delim ≠ '\n' →
      (readAllAux parse fuel rec s).1 =
          rows.map (fun r => parseRecordAux parse r 0 s.tupleToColumn) ∧
        (readAllAux parse fuel rec s).2.1 = none := by
  intro rows
  induction rows with
  | nil =>
    intro fuel rec s hstream hfuel _ _
    cases fuel with
    | zero => omega
    | succ f =>
      have hs : s.stream = [] := by simpa using hstream
      have heof : dsvRead parse rec s = ReadRes.eof rec
          { s with stream := [], line := [], numLines := s.numLines + 1 } := by
        unfold dsvRead read_line
        rw [hs]
        simp [getline]
      unfold readAllAux
      rw [heof]
      simp
  | cons r rows ih =>
    intro fuel rec s hstream hfuel hrows hd
    have hr := hrows r (by simp)
    have hstream' : s.stream = write_line s.delim r ++
        (rows.map (fun q => write_line s.delim q)).flatten := by
      simpa using hstream
    cases fuel with
    | zero => omega
    | succ f =>
      unfold readAllAux
      rw [dsvRead_data_ok parse rec s r _ hstream' hr.2.1 hr.2.2 hd hr.1]
      have hwl : 0 < (write_line s.delim r).length :=
        write_line_length_pos s.delim r hr.2.1
      have hflat : ((rows.map (fun q => write_line s.delim q)).flatten).length < f := by
        have : s.stream.length =
            (write_line s.delim r).length +
              ((rows.map (fun q => write_line s.delim q)).flatten).length := by
          rw [hstream']
          simp
        omega
      have hih := ih f (parseRecordAux parse r 0 s.tupleToColumn)
        { s with
            stream := (rows.map (fun q => write_line s.delim q)).flatten
            line := joinCols s.delim r
            numLines := s.numLines + 1
            columns := r
            numRecords := s.numRecords + 1 }
        (by simp) (by simpa using hflat)
        (by intro q hq; exact hrows q (List.mem_cons_of_mem r hq)) hd
      rcases hrec : readAllAux parse f (parseRecordAux parse r 0 s.tupleToColumn)
        { s with
            stream := (rows.map (fun q => write_line s.delim q)).flatten
            line := joinCols s.delim r
            numLines := s.numLines + 1
            columns := r
            numRecords := s.numRecords + 1 } with ⟨rs, e, sf⟩
      rw [hrec] at hih
      simp only at hih
      simp only [hrec, List.map_cons]
      exact ⟨by rw [hih.1], hih.2⟩

/-- A reader positioned at well-formed data lines followed by a line with a
mismatched column count parses exactly the good lines and then throws,
naming the mismatch direction and the 1-based file line number of the
offending line. -/
theorem readAllAux_rows_err (parse : Nat → List Char → α) :
    ∀ (rows : List (List (List Char))) (fuel : Nat) (rec : List α)
      (s : DsvState) (badCols : List (List Char)) (tail : List Char),
      s.stream = (rows.map (fun r => write_line s.delim r)).flatten ++
        write_line s.delim badCols ++ tail →
      s.stream.length < fuel →
      (∀ r ∈ rows, r.length = s.numColumns ∧ r ≠ [] ∧
        ∀ c ∈ r, c ≠ [] ∧ s.delim ∉ c ∧ '\n' ∉ c) →
      badCols ≠ [] →
      (∀ c ∈ badCols, c ≠ [] ∧ s.delim ∉ c ∧ '\n' ∉ c) →
      badCols.length ≠ s.numColumns →
      s.delim ≠ '\n' →
      (readAllAux parse fuel rec s).1 =
          rows.map (fun r => parseRecordAux parse r 0 s.tupleToColumn) ∧
        (readAllAux parse fuel rec s).2.1 = some
          ((if badCols.length < s.numColumns then "Too few columns in line ".data
            else "Too many columns in line ".data) ++
            toDecimal (s.numLines + rows.length + 1)) := by
  intro rows
  induction rows with
  | nil =>
    intro fuel rec s badCols tail hstream hfuel _ hbne hbok hbmis hd
    have hstream' : s.stream = write_line s.delim badCols ++ tail := by
      simpa using hstream
    cases fuel with
    | zero => omega
    | succ f =>
      unfold readAllAux
      rw [dsvRead_data_err parse rec s badCols tail hstream' hbne hbok hd hbmis]
      simp
  | cons r rows ih =>
    intro fuel rec s badCols tail hstream hfuel hrows hbne hbok hbmis hd
    have hr := hrows r (by simp)
    have hstream' : s.stream = write_line s.delim r ++
        ((rows.map (fun q => write_line s.delim q)).flatten ++
          write_line s.delim badCols ++ tail) := by
      rw [hstream]
      simp
    cases fuel with
    | zero => omega
    | succ f =>
      unfold readAllAux
      rw [dsvRead_data_ok parse rec s r _ hstream' hr.2.1 hr.2.2 hd hr.1]
      have hwl : 0 < (write_line s.delim r).length :=
        write_line_length_pos s.delim r hr.2.1
      have hlen' : ((rows.map (fun q => write_line s.delim q)).flatten ++
          write_line s.delim badCols ++ tail).length < f := by
        have : s.stream.length = (write_line s.delim r).length +
            ((rows.map (fun q => write_line s.delim q)).flatten ++
              write_line s.delim badCols ++ tail).length := by
          rw [hstream']
          simp
        omega
      have hih := ih f (parseRecordAux parse r 0 s.tupleToColumn)
        { s with
            stream := (rows.map (fun q => write_line s.delim q)).flatten ++
              write_line s.delim badCols ++ tail
            line := joinCols s.delim r
            numLines := s.numLines + 1
            columns := r
            numRecords := s.numRecords + 1 }
        badCols tail (by simp) (by simpa using hlen')
        (by intro q hq; exact hrows q (List.mem_cons_of_mem r hq))
        hbne hbok hbmis hd
      rcases hrec : readAllAux parse f (parseRecordAux parse r 0 s.tupleToColumn)
        { s with
            stream := (rows.map (fun q => write_line s.delim q)).flatten ++
              write_line s.delim badCols ++ tail
            line := joinCols s.delim r
            numLines := s.numLines + 1
            columns := r
            numRecords := s.numRecords + 1 } with ⟨rs, e, sf⟩
      rw [hrec] at hih
      simp only at hih
      have harg : s.numLines + 1 + rows.length + 1 =
          s.numLines + (r :: rows).length + 1 := by
        simp
        omega
      rw [harg] at hih
      simp only [hrec, List.map_cons]
      exact ⟨by rw [hih.1], hih.2⟩

/-- Like `readAllAux_rows`, for `read(record, extra)`: each record comes
paired with the parsed extra-column values of its line, in file order. -/
theorem readAllEAux_rows (parse : Nat → List Char → α) (parseE : List Char → β) :
    ∀ (rows : List (List (List Char))) (fuel : Nat) (rec : List α)
      (ext : List β) (s : DsvState),
      s.stream = (rows.map (fun r => write_line s.delim r)).flatten →
      s.stream.length < fuel →
      (∀ r ∈ rows, r.length = s.numColumns ∧ r ≠ [] ∧
        ∀ c ∈ r, c ≠ [] ∧ s.delim ∉ c ∧ '\n' ∉ c) →
      s.delim ≠ '\n' →
      (readAllEAux parse parseE fuel rec ext s).1 =
          rows.map (fun r => (parseRecordAux parse r 0 s.tupleToColumn,
            s.extraColumns.map (fun i => parseE (r.getD i [])))) ∧
        (readAllEAux parse parseE fuel rec ext s).2.1 = none := by
  intro rows
  induction rows with
  | nil =>
    intro fuel rec ext s hstream hfuel _ _
    cases fuel with
    | zero => omega
    | succ f =>
      have hs : s.stream = [] := by simpa using hstream
      have heof : dsvRead parse rec s = ReadRes.eof rec
          { s with stream := [], line := [], numLines := s.numLines + 1 } := by
        unfold dsvRead read_line
        rw [hs]
        simp [getline]
      unfold readAllEAux dsvReadE
      rw [heof]
      simp
  | cons r rows ih =>
    intro fuel rec ext s hstream hfuel hrows hd
    have hr := hrows r (by simp)
    have hstream' : s.stream = write_line s.delim r ++
        (rows.map (fun q => write_line s.delim q)).flatten := by
      simpa using hstream
    cases fuel with
    | zero => omega
    | succ f =>
      unfold readAllEAux dsvReadE
      rw [dsvRead_data_ok parse rec s r _ hstream' hr.2.1 hr.2.2 hd hr.1]
      have hwl : 0 < (write_line s.delim r).length :=
        write_line_length_pos s.delim r hr.2.1
      have hflat : ((rows.map (fun q => write_line s.delim q)).flatten).length < f := by
        have : s.stream.length =
            (write_line s.delim r).length +
              ((rows.map (fun q => write_line s.delim q)).flatten).length := by
          rw [hstream']
          simp
        omega
      have hih := ih f (parseRecordAux parse r 0 s.tupleToColumn)
        (s.extraColumns.map (fun i => parseE (r.getD i [])))
        { s with
            stream := (rows.map (fun q => write_line s.delim q)).flatten
            line := joinCols s.delim r
            numLines := s.numLines + 1
            columns := r
            numRecords := s.numRecords + 1 }
        (by simp) (by simpa using hflat)
        (by intro q hq; exact hrows q (List.mem_cons_of_mem r hq)) hd
      rcases hrec : readAllEAux parse parseE f
        (parseRecordAux parse r 0 s.tupleToColumn)
        (s.extraColumns.map (fun i => parseE (r.getD i [])))
        { s with
            stream := (rows.map (fun q => write_line s.delim q)).flatten
            line := joinCols s.delim r
            numLines := s.numLines + 1
            columns := r
            numRecords := s.numRecords + 1 } with ⟨rs, e, sf⟩
      rw [hrec] at hih
      simp only at hih
      simp only [hrec, List.map_cons]
      exact ⟨by rw [hih.1], hih.2⟩

/-! ### Header parsing: name lookup and the column mapping loop -/

theorem getD_mem (l : List (List Char)) (j : Nat) (h : j < l.length) :
    l.getD j [] ∈ l := by
  rw [List.getD_eq_getElem?_getD, List.getElem?_eq_getElem h]
  exact List.getElem_mem h

theorem getD_set_self (l : List Nat) (i x : Nat) (h : i < l.length) :
    (l.set i x).getD i 0 = x := by
  rw [List.getD_eq_getElem?_getD, List.getElem?_set_eq h]
  rfl

theorem getD_set_ne (l : List Nat) (i j x : Nat) (h : i ≠ j) :
    (l.set i x).getD j 0 = l.getD j 0 := by
  rw [List.getD_eq_getElem?_getD, List.getD_eq_getElem?_getD,
    List.getElem?_set_ne h]

theorem firstIdx_isSome_iff_mem (x : List Char) (l : List (List Char)) :
    (firstIdx x l).isSome = true ↔ x ∈ l := by
  induction l with
  | nil => simp [firstIdx]
  | cons c rest ih =>
    by_cases hc : c = x
    · simp [firstIdx, hc]
    · simp only [firstIdx, if_neg hc, List.mem_cons, Option.isSome_map']
      rw [ih]
      constructor
      · exact fun h => Or.inr h
      · rintro (h | h)
        · exact absurd h.symm hc
        · exact h

theorem firstIdx_some_spec (x : List Char) :
    ∀ (l : List (List Char)) (k : Nat), firstIdx x l = some k →
      k < l.length ∧ l.getD k [] = x := by
  intro l
  induction l with
  | nil => intro k h; simp [firstIdx] at h
  | cons c rest ih =>
    intro k h
    by_cases hc : c = x
    · simp only [firstIdx, if_pos hc, Option.some.injEq] at h
      subst h
      simpa using hc
    · simp only [firstIdx, if_neg hc, Option.map_eq_some'] at h
      rcases h with ⟨k', hk', rfl⟩
      have := ih k' hk'
      constructor
      · simpa using this.1
      · simpa using this.2

theorem firstIdx_cons_zero (x c : List Char) (rest : List (List Char))
    (h : firstIdx x (c :: rest) = some 0) : c = x := by
  by_cases hc : c = x
  · exact hc
  · simp only [firstIdx, if_neg hc, Option.map_eq_some'] at h
    rcases h with ⟨k', _, hk'⟩
    omega

theorem firstIdx_cons_succ (x c : List Char) (rest : List (List Char)) (k : Nat)
    (h : firstIdx x (c :: rest) = some (k + 1)) :
    c ≠ x ∧ firstIdx x rest = some k := by
  by_cases hc : c = x
  · simp [firstIdx, hc] at h
  · simp only [firstIdx, if_neg hc, Option.map_eq_some'] at h
    rcases h with ⟨k', hk', hkk⟩
    exact ⟨hc, by rw [hk']; congr 1; omega⟩

theorem firstIdx_cons_none (x c : List Char) (rest : List (List Char))
    (h : firstIdx x (c :: rest) = none) :
    c ≠ x ∧ firstIdx x rest = none := by
  by_cases hc : c = x
  · simp [firstIdx, hc] at h
  · simp only [firstIdx, if_neg hc, Option.map_eq_none'] at h
    exact ⟨hc, h⟩

theorem countOcc_zero_not_mem (x : List Char) (l : List (List Char))
    (h : countOcc x l = 0) : x ∉ l := by
  induction l with
  | nil => simp
  | cons c rest ih =>
    simp only [countOcc] at h
    by_cases hc : c = x
    · rw [if_pos hc] at h
      omega
    · rw [if_neg hc] at h
      simp only [List.mem_cons, not_or]
      exact ⟨fun hx => hc hx.symm, ih (by omega)⟩

theorem nodup_firstIdx_getD (l : List (List Char)) (hl : l.Nodup) :
    ∀ j, j < l.length → firstIdx (l.getD j []) l = some j := by
  induction l with
  | nil => intro j h; simp at h
  | cons c rest ih =>
    intro j hj
    rcases List.nodup_cons.mp hl with ⟨hc, hrest⟩
    cases j with
    | zero => simp [firstIdx]
    | succ j' =>
      have hj' : j' < rest.length := by simpa using hj
      have hne : c ≠ rest.getD j' [] := by
        intro hcc
        exact hc (hcc ▸ getD_mem rest j' hj')
      have : (c :: rest).getD (j' + 1) [] = rest.getD j' [] := by simp
      rw [this, firstIdx, if_neg hne, ih hrest j' hj']
      rfl

theorem firstMissing_none (cols : List (List Char)) :
    ∀ ns : List (List Char), (∀ n ∈ ns, (firstIdx n cols).isSome) →
      firstMissing cols ns = none := by
  intro ns
  induction ns with
  | nil => intro _; rfl
  | cons n rest ih =>
    intro h
    simp only [firstMissing, if_pos (h n (by simp))]
    exact ih (fun m hm => h m (by simp [hm]))

theorem firstMissing_some (cols : List (List Char)) :
    ∀ ns : List (List Char), (∃ n ∈ ns, n ∉ cols) →
      ∃ n0, firstMissing cols ns = some n0 ∧ n0 ∈ ns ∧ n0 ∉ cols := by
  intro ns
  induction ns with
  | nil => rintro ⟨n, hn, _⟩; simp at hn
  | cons n rest ih =>
    rintro ⟨m, hm, hmc⟩
    by_cases hn : (firstIdx n cols).isSome = true
    · have hnmem : n ∈ cols := (firstIdx_isSome_iff_mem n cols).mp hn
      have hmr : m ∈ rest := by
        rcases List.mem_cons.mp hm with rfl | h
        · exact absurd hnmem hmc
        · exact h
      rcases ih ⟨m, hmr, hmc⟩ with ⟨n0, h1, h2, h3⟩
      exact ⟨n0, by simp only [firstMissing, if_pos hn]; exact h1,
        by simp [h2], h3⟩
    · refine ⟨n, ?_, by simp, ?_⟩
      · simp only [firstMissing, if_neg hn]
      · intro hmem
        exact hn ((firstIdx_isSome_iff_mem n cols).mpr hmem)

theorem parseHeaderLoop_length (names : List (List Char)) :
    ∀ (cols : List (List Char)) (t2c ex : List Nat) (i : Nat),
      (parseHeaderLoop names t2c ex i cols).1.length = t2c.length := by
  intro cols
  induction cols with
  | nil => intro t2c ex i; rfl
  | cons c rest ih =>
    intro t2c ex i
    cases hfi : firstIdx c names with
    | some j =>
      simp only [parseHeaderLoop, hfi]
      rw [ih]
      exact List.length_set t2c j i
    | none =>
      simp only [parseHeaderLoop, hfi]
      exact ih t2c (ex ++ [i]) (i + 1)

theorem parseHeaderLoop_extras (names : List (List Char)) :
    ∀ (cols : List (List Char)) (t2c ex : List Nat) (i : Nat),
      (parseHeaderLoop names t2c ex i cols).2 = ex ++ extrasOf names i cols := by
  intro cols
  induction cols with
  | nil => intro t2c ex i; simp [parseHeaderLoop, extrasOf]
  | cons c rest ih =>
    intro t2c ex i
    cases hfi : firstIdx c names with
    | some j =>
      have hsome : (firstIdx c names).isSome := by rw [hfi]; rfl
      simp only [parseHeaderLoop, hfi, extrasOf, if_pos hsome]
      exact ih (t2c.set j i) ex (i + 1)
    | none =>
      have hnone : ¬ (firstIdx c names).isSome = true := by rw [hfi]; simp
      simp only [parseHeaderLoop, hfi, extrasOf, if_neg hnone]
      rw [ih]
      simp

/-- The mapping the header loop builds: a tuple name that first occurs at
offset `k` in the remaining columns gets `m_tuple_to_column` entry `i + k`
(provided the name occurs at most once among the columns), and a tuple name
that does not occur leaves its entry untouched. -/
theorem parseHeaderLoop_maps (names : List (List Char)) (hnodup : names.Nodup) :
    ∀ (cols : List (List Char)) (t2c ex : List Nat) (i : Nat),
      t2c.length = names.length →
      (∀ n ∈ names, countOcc n cols ≤ 1) →
      (∀ j k, j < names.length → firstIdx (names.getD j []) cols = some k →
        ((parseHeaderLoop names t2c ex i cols).1).getD j 0 = i + k) ∧
      (∀ j, j < names.length → firstIdx (names.getD j []) cols = none →
        ((parseHeaderLoop names t2c ex i cols).1).getD j 0 = t2c.getD j 0) := by
  intro cols
  induction cols with
  | nil =>
    intro t2c ex i _ _
    constructor
    · intro j k _ hfi
      simp [firstIdx] at hfi
    · intro j _ _
      rfl
  | cons c rest ih =>
    intro t2c ex i hlen hcount
    cases hfi : firstIdx c names with
    | some j0 =>
      have hj0 := firstIdx_some_spec c names j0 hfi
      have hihm := ih (t2c.set j0 i) ex (i + 1)
        (by rw [List.length_set]; exact hlen)
        (by
          intro n hn
          have := hcount n hn
          simp only [countOcc] at this
          omega)
      constructor
      · intro j k hj hk
        cases k with
        | zero =>
          have hcj : c = names.getD j [] := firstIdx_cons_zero _ c rest hk
          have hjj0 : j = j0 := by
            have h1 : firstIdx (names.getD j []) names = some j :=
              nodup_firstIdx_getD names hnodup j hj
            rw [← hcj] at h1
            rw [hfi] at h1
            simpa using h1.symm
          subst hjj0
          have hcrest : firstIdx (names.getD j []) rest = none := by
            have hc1 : countOcc (names.getD j []) (c :: rest) ≤ 1 :=
              hcount _ (getD_mem names j hj)
            simp only [countOcc, if_pos hcj] at hc1
            have hz : countOcc (names.getD j []) rest = 0 := by omega
            have hnm := countOcc_zero_not_mem _ rest hz
            cases hfr : firstIdx (names.getD j []) rest with
            | none => rfl
            | some kk =>
              have := (firstIdx_isSome_iff_mem (names.getD j []) rest).mp
                (by rw [hfr]; rfl)
              exact absurd this hnm
          simp only [parseHeaderLoop, hfi]
          rw [hihm.2 j hj hcrest, getD_set_self t2c j i (by omega)]
          omega
        | succ k' =>
          have hk' := firstIdx_cons_succ _ c rest k' hk
          simp only [parseHeaderLoop, hfi]
          rw [hihm.1 j k' hj hk'.2]
          omega
      · intro j hj hknone
        have hk' := firstIdx_cons_none _ c rest hknone
        have hjj0 : j0 ≠ j := by
          intro hjeq
          subst hjeq
          exact hk'.1 hj0.2.symm
        simp only [parseHeaderLoop, hfi]
        rw [hihm.2 j hj hk'.2, getD_set_ne t2c j0 j i hjj0]
    | none =>
      have hihm := ih t2c (ex ++ [i]) (i + 1) hlen
        (by
          intro n hn
          have := hcount n hn
          simp only [countOcc] at this
          omega)
      constructor
      · intro j k hj hk
        cases k with
        | zero =>
          have hcj : c = names.getD j [] := firstIdx_cons_zero _ c rest hk
          have : (firstIdx c names).isSome :=
            (firstIdx_isSome_iff_mem c names).mpr (hcj ▸ getD_mem names j hj)
          rw [hfi] at this
          simp at this
        | succ k' =>
          have hk' := firstIdx_cons_succ _ c rest k' hk
          simp only [parseHeaderLoop, hfi]
          rw [hihm.1 j k' hj hk'.2]
          omega
      · intro j hj hknone
        have hk' := firstIdx_cons_none _ c rest hknone
        simp only [parseHeaderLoop, hfi]
        exact hihm.2 j hj hk'.2

theorem extrasOf_all_found (names : List (List Char)) :
    ∀ (cols : List (List Char)) (i : Nat),
      (∀ c ∈ cols, c ∈ names) → extrasOf names i cols = [] := by
  intro cols
  induction cols with
  | nil => intro i _; rfl
  | cons c rest ih =>
    intro i h
    have hc : (firstIdx c names).isSome :=
      (firstIdx_isSome_iff_mem c names).mpr (h c (by simp))
    simp only [extrasOf, if_pos hc]
    exact ih (i + 1) (fun x hx => h x (by simp [hx]))

theorem list_eq_of_getD (l1 l2 : List Nat) (hlen : l1.length = l2.length)
    (h : ∀ j, j < l1.length → l1.getD j 0 = l2.getD j 0) : l1 = l2 := by
  apply List.ext_getElem hlen
  intro n h1 h2
  have := h n h1
  rw [List.getD_eq_getElem?_getD, List.getD_eq_getElem?_getD,
    List.getElem?_eq_getElem h1, List.getElem?_eq_getElem h2] at this
  simpa using this

/-- Opening a verified-mode reader on a header line whose columns contain
every tuple name: the header is consumed, the column count is fixed, and
the mapping and extra columns are those of the header loop. -/
theorem dsvOpen_verified (names : List (List Char)) (d : Char)
    (hcols : List (List Char)) (rest : List Char)
    (hne : hcols ≠ [])
    (hok : ∀ c ∈ hcols, c ≠ [] ∧ d ∉ c ∧ '\n' ∉ c)
    (hd : d ≠ '\n')
    (hall : ∀ n ∈ names, n ∈ hcols) :
    dsvOpen names d (write_line d hcols ++ rest) true = Except.ok
      { delim := d, stream := rest, line := joinCols d hcols, columns := hcols,
        numLines := 1, numRecords := 0, numColumns := hcols.length,
        tupleToColumn :=
          (parseHeaderLoop names (List.replicate names.length 0) [] 0 hcols).1,
        extraColumns := extrasOf names 0 hcols } := by
  unfold dsvOpen
  rw [read_line_data (initState d (write_line d hcols ++ rest) names.length)
    hcols rest rfl hne hok hd]
  simp only [if_true]
  unfold parse_header
  rw [firstMissing_none hcols names
    (fun n hn => (firstIdx_isSome_iff_mem n hcols).mpr (hall n hn))]
  rcases hloop : parseHeaderLoop names (List.replicate names.length 0) [] 0 hcols
    with ⟨t2c, ex⟩
  have hex : ex = extrasOf names 0 hcols := by
    have := parseHeaderLoop_extras names hcols (List.replicate names.length 0) [] 0
    rw [hloop] at this
    simpa using this
  simp only [initState, hloop, hex]

/-- C7: opening a verified-mode `DsvReader` on a file whose header line
omits at least one tuple field name fails during construction, before any
`read` call, with the `Missing header column` error naming a missing
field. -/
theorem dsvOpen_missing_field (names : List (List Char)) (d : Char)
    (hcols : List (List Char)) (rest : List Char)
    (hne : hcols ≠ [])
    (hok : ∀ c ∈ hcols, c ≠ [] ∧ d ∉ c ∧ '\n' ∉ c)
    (hd : d ≠ '\n')
    (hmiss : ∃ n ∈ names, n ∉ hcols) :
    ∃ n, n ∈ names ∧ n ∉ hcols ∧
      dsvOpen names d (write_line d hcols ++ rest) true =
        Except.error ("Missing header column '".data ++ n ++ "'".data) := by
  rcases firstMissing_some hcols names hmiss with ⟨n0, hfm, hmem, hnotin⟩
  refine ⟨n0, hmem, hnotin, ?_⟩
  unfold dsvOpen
  rw [read_line_data (initState d (write_line d hcols ++ rest) names.length)
    hcols rest rfl hne hok hd]
  simp only [if_true]
  unfold parse_header
  rw [hfm]

/-- Witness for C7: a two-field record against a one-column header. -/
theorem dsvOpen_missing_field_witness :
    ∃ n, n ∈ [['x'], ['y']] ∧ n ∉ [['x']] ∧
      dsvOpen [['x'], ['y']] ',' (write_line ',' [['x']] ++ []) true =
        Except.error ("Missing header column '".data ++ n ++ "'".data) :=
  dsvOpen_missing_field [['x'], ['y']] ',' [['x']] []
    (by decide) (by decide) (by decide) (by decide)

/-- C6: a data line whose column count differs from the count fixed by the
header makes `read` throw a format error that distinguishes too few from
too many columns and reports the 1-based line number (the header being
line 1) of the offending line; no record is produced from that line. -/
theorem dsvRead_column_count_error (d : Char) (names : List (List Char))
    (goodRows : List (List (List Char))) (badCols : List (List Char))
    (tail : List Char) (parse : Nat → List Char → α) (rec : List α)
    (hd : d ≠ '\n')
    (hnne : names ≠ [])
    (hnok : ∀ c ∈ names, c ≠ [] ∧ d ∉ c ∧ '\n' ∉ c)
    (hgood : ∀ r ∈ goodRows, r.length = names.length ∧ r ≠ [] ∧
      ∀ c ∈ r, c ≠ [] ∧ d ∉ c ∧ '\n' ∉ c)
    (hbne : badCols ≠ [])
    (hbok : ∀ c ∈ badCols, c ≠ [] ∧ d ∉ c ∧ '\n' ∉ c)
    (hbmis : badCols.length ≠ names.length) :
    ∃ s0, dsvOpen names d (write_line d names ++
        ((goodRows.map (fun r => write_line d r)).flatten ++
          write_line d badCols ++ tail)) true = Except.ok s0 ∧
      (readAll parse rec s0).1.length = goodRows.length ∧
      (readAll parse rec s0).2.1 = some
        ((if badCols.length < names.length then "Too few columns in line ".data
          else "Too many columns in line ".data) ++
          toDecimal (goodRows.length + 2)) := by
  refine ⟨_, dsvOpen_verified names d names
    ((goodRows.map (fun r => write_line d r)).flatten ++
      write_line d badCols ++ tail) hnne hnok hd (fun n hn => hn), ?_, ?_⟩
  · have := readAllAux_rows_err parse goodRows
      (((goodRows.map (fun r => write_line d r)).flatten ++
        write_line d badCols ++ tail).length + 1) rec
      { delim := d,
        stream := (goodRows.map (fun r => write_line d r)).flatten ++
          write_line d badCols ++ tail,
        line := joinCols d names, columns := names, numLines := 1,
        numRecords := 0, numColumns := names.length,
        tupleToColumn :=
          (parseHeaderLoop names (List.replicate names.length 0) [] 0 names).1,
        extraColumns := extrasOf names 0 names }
      badCols tail rfl (by simp) hgood hbne hbok hbmis hd
    rw [readAll]
    rw [this.1]
    simp
  · have := readAllAux_rows_err parse goodRows
      (((goodRows.map (fun r => write_line d r)).flatten ++
        write_line d badCols ++ tail).length + 1) rec
      { delim := d,
        stream := (goodRows.map (fun r => write_line d r)).flatten ++
          write_line d badCols ++ tail,
        line := joinCols d names, columns := names, numLines := 1,
        numRecords := 0, numColumns := names.length,
        tupleToColumn :=
          (parseHeaderLoop names (List.replicate names.length 0) [] 0 names).1,
        extraColumns := extrasOf names 0 names }
      badCols tail rfl (by simp) hgood hbne hbok hbmis hd
    rw [readAll]
    rw [this.2]
    have harg : 1 + goodRows.length + 1 = goodRows.length + 2 := by omega
    rw [harg]

/-- Witness for C6: a two-column bad line against a one-field record with
no preceding good rows; the error names line 2. -/
theorem dsvRead_column_count_error_witness :
    ∃ s0, dsvOpen [['x']] ',' (write_line ',' [['x']] ++
        (([] : List (List (List Char))).map
          (fun r => write_line ',' r)).flatten ++
        write_line ',' [['a'], ['b']] ++ []) true = Except.ok s0 ∧
      (readAll (fun _ s => fromDecimal s) ([] : List Nat) s0).1.length = 0 ∧
      (readAll (fun _ s => fromDecimal s) ([] : List Nat) s0).2.1 = some
        ((if ([['a'], ['b']] : List (List Char)).length < ([['x']] : List (List Char)).length
          then "Too few columns in line ".data
          else "Too many columns in line ".data) ++ toDecimal 2) := by
  have h := dsvRead_column_count_error ',' [['x']] [] [['a'], ['b']] []
    (fun _ s => fromDecimal s) ([] : List Nat)
    (by decide) (by decide) (by decide) (by simp) (by decide) (by decide)
    (by decide)
  simpa using h

/-! ### The write-then-read round trip -/

theorem countOcc_not_mem (x : List Char) (l : List (List Char)) (h : x ∉ l) :
    countOcc x l = 0 := by
  induction l with
  | nil => rfl
  | cons c rest ih =>
    simp only [List.mem_cons, not_or] at h
    simp only [countOcc, if_neg (fun hc : c = x => h.1 hc.symm)]
    rw [ih h.2]

theorem nodup_countOcc_le_one (l : List (List Char)) (hl : l.Nodup)
    (x : List Char) : countOcc x l ≤ 1 := by
  induction l with
  | nil => simp [countOcc]
  | cons c rest ih =>
    rcases List.nodup_cons.mp hl with ⟨hc, hrest⟩
    by_cases hcx : c = x
    · simp only [countOcc, if_pos hcx]
      rw [countOcc_not_mem x rest (hcx ▸ hc)]
    · simp only [countOcc, if_neg hcx]
      have := ih hrest
      omega

/-- For an exact-match header (the writer's own header read back), the
column mapping the reader builds is the identity. -/
theorem parseHeaderLoop_identity (names : List (List Char))
    (hnodup : names.Nodup) :
    (parseHeaderLoop names (List.replicate names.length 0) [] 0 names).1 =
      List.range names.length := by
  apply list_eq_of_getD
  · rw [parseHeaderLoop_length]
    simp
  · intro j hj
    have hj' : j < names.length := by
      rwa [parseHeaderLoop_length, List.length_replicate] at hj
    have hmaps := (parseHeaderLoop_maps names hnodup names
      (List.replicate names.length 0) [] 0 (by simp)
      (fun n _ => nodup_countOcc_le_one names hnodup n)).1 j j hj'
      (nodup_firstIdx_getD names hnodup j hj')
    rw [hmaps, List.getD_eq_getElem?_getD, List.getElem?_range hj']
    simp

theorem printRow_length (print : Nat → α → List Char) :
    ∀ (r : List α) (i : Nat), (printRow print i r).length = r.length := by
  intro r
  induction r with
  | nil => intro i; rfl
  | cons v vs ih => intro i; simp [printRow, ih]

theorem printRow_mem (print : Nat → α → List Char) :
    ∀ (r : List α) (i : Nat) (c : List Char), c ∈ printRow print i r →
      ∃ k v, c = print k v := by
  intro r
  induction r with
  | nil => intro i c h; simp [printRow] at h
  | cons v vs ih =>
    intro i c h
    simp only [printRow, List.mem_cons] at h
    rcases h with rfl | h
    · exact ⟨i, v, rfl⟩
    · exact ih (i + 1) c h

theorem getD_append_self (pre : List (List Char)) (x : List Char)
    (t : List (List Char)) : (pre ++ x :: t).getD pre.length [] = x := by
  rw [List.getD_eq_getElem?_getD, List.getElem?_append_right (le_refl _)]
  simp

/-- Parsing back a printed row through the identity column mapping yields,
field by field, `parse` of `print` of the original value. -/
theorem parse_printRow (print : Nat → α → List Char)
    (parse : Nat → List Char → α) (approx : Nat → α → α → Prop)
    (hround : ∀ i v, approx i (parse i (print i v)) v) :
    ∀ (r : List α) (pre : List (List Char)),
      Forall₂Idx approx pre.length
        (parseRecordAux parse (pre ++ printRow print pre.length r) pre.length
          (List.range' pre.length r.length))
        r := by
  intro r
  induction r with
  | nil => intro pre; exact Forall₂Idx.nil pre.length
  | cons v vs ih =>
    intro pre
    have hcols : pre ++ printRow print pre.length (v :: vs) =
        pre ++ print pre.length v :: printRow print (pre.length + 1) vs := rfl
    have hget : (pre ++ print pre.length v ::
        printRow print (pre.length + 1) vs).getD pre.length [] =
        print pre.length v :=
      getD_append_self pre (print pre.length v) (printRow print (pre.length + 1) vs)
    show Forall₂Idx approx pre.length
      (parseRecordAux parse (pre ++ printRow print pre.length (v :: vs))
        pre.length (pre.length :: List.range' (pre.length + 1) vs.length))
      (v :: vs)
    rw [hcols]
    simp only [parseRecordAux, hget]
    refine Forall₂Idx.cons _ _ _ _ _ (hround pre.length v) ?_
    have hpre := ih (pre ++ [print pre.length v])
    have hlen : (pre ++ [print pre.length v]).length = pre.length + 1 := by simp
    rw [hlen] at hpre
    have hassoc : (pre ++ [print pre.length v]) ++ printRow print (pre.length + 1) vs =
        pre ++ print pre.length v :: printRow print (pre.length + 1) vs := by
      simp
    rwa [hassoc] at hpre

theorem forall₂_map_self (R : β → γ → Prop) (f : γ → β) :
    ∀ l : List γ, (∀ x ∈ l, R (f x) x) → List.Forall₂ R (l.map f) l := by
  intro l
  induction l with
  | nil => intro _; exact List.Forall₂.nil
  | cons x xs ih =>
    intro h
    exact List.Forall₂.cons (h x (by simp)) (ih (fun y hy => h y (by simp [hy])))

/-- C3: writing a header and any sequence of records with `DsvWriter` and
reading the file back with a verified-mode `DsvReader` over the same record
type succeeds, ends cleanly, and returns one record per written row whose
fields are, position by position, `parse` of `print` of the original
values — so whenever each field's text round trip is faithful up to the
per-field relation `approx` (exact for integers, the configured-precision
rounding tolerance for floats), the read-back sequence matches the written
one up to `approx`. -/
theorem dsv_round_trip (d : Char) (names : List (List Char))
    (rows : List (List α)) (print : Nat → α → List Char)
    (parse : Nat → List Char → α) (approx : Nat → α → α → Prop)
    (rec0 : List α)
    (hd : d ≠ '\n')
    (hn0 : names ≠ []) (hnd : names.Nodup)
    (hnames : ∀ n ∈ names, n ≠ [] ∧ d ∉ n ∧ '\n' ∉ n)
    (hrows : ∀ r ∈ rows, r.length = names.length)
    (hprint : ∀ i v, print i v ≠ [] ∧ d ∉ print i v ∧ '\n' ∉ print i v)
    (hround : ∀ i v, approx i (parse i (print i v)) v) :
    ∃ s0, dsvOpen names d (dsvWriteFile d print names rows) true =
        Except.ok s0 ∧
      (readAll parse rec0 s0).2.1 = none ∧
      List.Forall₂ (Forall₂Idx approx 0) (readAll parse rec0 s0).1 rows := by
  have hopen := dsvOpen_verified names d names
    ((rows.map (fun r => write_line d (printRow print 0 r))).flatten)
    hn0 hnames hd (fun n hn => hn)
  refine ⟨_, hopen, ?_⟩
  have hid : (parseHeaderLoop names (List.replicate names.length 0) [] 0 names).1 =
      List.range names.length := parseHeaderLoop_identity names hnd
  have hra := readAllAux_rows parse (rows.map (printRow print 0))
    ((rows.map (fun r => write_line d (printRow print 0 r))).flatten.length + 1)
    rec0
    { delim := d,
      stream := (rows.map (fun r => write_line d (printRow print 0 r))).flatten,
      line := joinCols d names, columns := names, numLines := 1,
      numRecords := 0, numColumns := names.length,
      tupleToColumn :=
        (parseHeaderLoop names (List.replicate names.length 0) [] 0 names).1,
      extraColumns := extrasOf names 0 names }
    (by simp [List.map_map]; rfl)
    (by simp)
    (by
      intro tr htr
      rcases List.mem_map.mp htr with ⟨r, hr, rfl⟩
      refine ⟨?_, ?_, ?_⟩
      · rw [printRow_length]
        exact hrows r hr
      · have : 0 < (printRow print 0 r).length := by
          rw [printRow_length, hrows r hr]
          exact List.length_pos.mpr hn0
        exact List.ne_nil_of_length_pos this
      · intro c hc
        rcases printRow_mem print r 0 c hc with ⟨k, v, rfl⟩
        exact hprint k v)
    hd
  rw [readAll]
  refine ⟨hra.2, ?_⟩
  rw [hra.1]
  simp only [hid, List.map_map]
  apply forall₂_map_self
  intro r hr
  have hpp := parse_printRow print parse approx hround r []
  simp only [List.length_nil, List.nil_append] at hpp
  have hr' : List.range' 0 r.length = List.range names.length := by
    rw [hrows r hr, List.range_eq_range']
  rw [hr'] at hpp
  exact hpp

/-- Witness for C3 over decimal-printed `Fin 10` fields, where the text
round trip is exact. -/
theorem dsv_round_trip_witness :
    ∃ s0, dsvOpen [['x'], ['y']] ','
        (dsvWriteFile ',' (fun _ v => toDecimal (Fin.val v)) [['x'], ['y']]
          [[(1 : Fin 10), 2], [3, 4]]) true = Except.ok s0 ∧
      (readAll (fun _ s => (Fin.ofNat (fromDecimal s) : Fin 10))
          ([] : List (Fin 10)) s0).2.1 = none ∧
      List.Forall₂ (Forall₂Idx (fun _ a b => a = b) 0)
        (readAll (fun _ s => (Fin.ofNat (fromDecimal s) : Fin 10))
          ([] : List (Fin 10)) s0).1
        [[(1 : Fin 10), 2], [3, 4]] :=
  dsv_round_trip ',' [['x'], ['y']] [[(1 : Fin 10), 2], [3, 4]]
    (fun _ v => toDecimal (Fin.val v))
    (fun _ s => (Fin.ofNat (fromDecimal s) : Fin 10))
    (fun _ a b => a = b) []
    (by decide) (by decide) (by decide) (by decide) (by decide)
    (by
      intro i
      exact (by decide : ∀ v : Fin 10, toDecimal v.val ≠ [] ∧
        ',' ∉ toDecimal v.val ∧ '\n' ∉ toDecimal v.val))
    (by
      intro i
      exact (by decide : ∀ v : Fin 10,
        (Fin.ofNat (fromDecimal (toDecimal v.val)) : Fin 10) = v))

/-! ### Header reordering tolerance and extra columns -/

theorem getD_map_idx (f : List Char → Nat) (l : List (List Char)) (j : Nat)
    (h : j < l.length) : (l.map f).getD j 0 = f (l.getD j []) := by
  rw [List.getD_eq_getElem?_getD, List.getD_eq_getElem?_getD,
    List.getElem?_map, List.getElem?_eq_getElem h]
  rfl

theorem parseRecordAux_matched (parse : Nat → List Char → α)
    (hcols rowcols : List (List Char)) :
    ∀ (ns : List (List Char)) (i : Nat),
      parseRecordAux parse rowcols i
        (ns.map (fun n => (firstIdx n hcols).getD 0)) =
        matchedRecord parse hcols rowcols i ns := by
  intro ns
  induction ns with
  | nil => intro i; rfl
  | cons n rest ih =>
    intro i
    simp only [List.map_cons, parseRecordAux, matchedRecord, ih]

/-- For a header that contains every tuple name exactly once (in any order,
interleaved with extra columns), the mapping the header loop builds sends
tuple index `j` to the file position of the `j`-th tuple name. -/
theorem parseHeaderLoop_perm (names hcols : List (List Char))
    (hnd : names.Nodup)
    (hIn : ∀ n ∈ names, n ∈ hcols)
    (hOnce : ∀ n ∈ names, countOcc n hcols ≤ 1) :
    (parseHeaderLoop names (List.replicate names.length 0) [] 0 hcols).1 =
      names.map (fun n => (firstIdx n hcols).getD 0) := by
  apply list_eq_of_getD
  · rw [parseHeaderLoop_length]
    simp
  · intro j hj
    have hj' : j < names.length := by
      rwa [parseHeaderLoop_length, List.length_replicate] at hj
    have hsome : (firstIdx (names.getD j []) hcols).isSome :=
      (firstIdx_isSome_iff_mem _ hcols).mpr (hIn _ (getD_mem names j hj'))
    rcases Option.isSome_iff_exists.mp hsome with ⟨k, hk⟩
    rw [(parseHeaderLoop_maps names hnd hcols (List.replicate names.length 0)
      [] 0 (by simp) hOnce).1 j k hj' hk]
    rw [getD_map_idx (fun n => (firstIdx n hcols).getD 0) names j hj', hk]
    simp

/-- C4: over a header that lists the record's field names in arbitrary
permuted order, interleaved with extra columns, a verified-mode reader
fixes at open time the name-matched position mapping and the extra-column
indices (in file order); every subsequent `read(record, extra)` call then
assigns field `j` the parsed value of the column whose header name is the
`j`-th field name regardless of its position, and delivers the parsed extra
columns in file order. -/
theorem dsv_header_permutation (d : Char) (names hcols : List (List Char))
    (rows : List (List (List Char))) (parse : Nat → List Char → α)
    (parseE : List Char → β) (rec0 : List α) (ext0 : List β)
    (hd : d ≠ '\n') (hnd : names.Nodup)
    (hhne : hcols ≠ [])
    (hhok : ∀ c ∈ hcols, c ≠ [] ∧ d ∉ c ∧ '\n' ∉ c)
    (hIn : ∀ n ∈ names, n ∈ hcols)
    (hOnce : ∀ n ∈ names, countOcc n hcols ≤ 1)
    (hrows : ∀ r ∈ rows, r.length = hcols.length ∧ r ≠ [] ∧
      ∀ c ∈ r, c ≠ [] ∧ d ∉ c ∧ '\n' ∉ c) :
    ∃ s0, dsvOpen names d (write_line d hcols ++
        (rows.map (fun r => write_line d r)).flatten) true = Except.ok s0 ∧
      s0.tupleToColumn = names.map (fun n => (firstIdx n hcols).getD 0) ∧
      s0.extraColumns = extrasOf names 0 hcols ∧
      (readAllE parse parseE rec0 ext0 s0).2.1 = none ∧
      (readAllE parse parseE rec0 ext0 s0).1 =
        rows.map (fun rc => (matchedRecord parse hcols rc 0 names,
          (extrasOf names 0 hcols).map (fun i => parseE (rc.getD i [])))) := by
  have hopen := dsvOpen_verified names d hcols
    ((rows.map (fun r => write_line d r)).flatten) hhne hhok hd hIn
  have hperm := parseHeaderLoop_perm names hcols hnd hIn hOnce
  refine ⟨_, hopen, by simpa using hperm, rfl, ?_⟩
  have hre := readAllEAux_rows parse parseE rows
    ((rows.map (fun r => write_line d r)).flatten.length + 1) rec0 ext0
    { delim := d,
      stream := (rows.map (fun r => write_line d r)).flatten,
      line := joinCols d hcols, columns := hcols, numLines := 1,
      numRecords := 0, numColumns := hcols.length,
      tupleToColumn :=
        (parseHeaderLoop names (List.replicate names.length 0) [] 0 hcols).1,
      extraColumns := extrasOf names 0 hcols }
    rfl (by simp) hrows hd
  rw [readAllE]
  refine ⟨hre.2, ?_⟩
  rw [hre.1]
  simp only [hperm, parseRecordAux_matched]

/-- Witness for C4: a two-field record `(x, y)` read from a header
`e, y, x` with one extra column. -/
theorem dsv_header_permutation_witness :
    ∃ s0, dsvOpen [['x'], ['y']] ',' (write_line ',' [['e'], ['y'], ['x']] ++
        ([[[ '7' ], [ '8' ], [ '9' ]]].map
          (fun r => write_line ',' r)).flatten) true = Except.ok s0 ∧
      s0.tupleToColumn =
        [['x'], ['y']].map (fun n => (firstIdx n [['e'], ['y'], ['x']]).getD 0) ∧
      s0.extraColumns = extrasOf [['x'], ['y']] 0 [['e'], ['y'], ['x']] ∧
      (readAllE (fun _ s => fromDecimal s) fromDecimal ([] : List Nat)
        ([] : List Nat) s0).2.1 = none ∧
      (readAllE (fun _ s => fromDecimal s) fromDecimal ([] : List Nat)
        ([] : List Nat) s0).1 =
        [[[ '7' ], [ '8' ], [ '9' ]]].map
          (fun rc => (matchedRecord (fun _ s => fromDecimal s)
            [['e'], ['y'], ['x']] rc 0 [['x'], ['y']],
            (extrasOf [['x'], ['y']] 0 [['e'], ['y'], ['x']]).map
              (fun i => fromDecimal (rc.getD i [])))) :=
  dsv_header_permutation ',' [['x'], ['y']] [['e'], ['y'], ['x']]
    [[[ '7' ], [ '8' ], [ '9' ]]] (fun _ s => fromDecimal s) fromDecimal [] []
    (by decide) (by decide) (by decide) (by decide) (by decide) (by decide)
    (by decide)

/-! ### The binary npy writer: decimal widths and header padding -/

theorem toDecimalAux_length_le :
    ∀ (f d n : Nat), 1 ≤ d → d ≤ f → n < 10 ^ d →
      (toDecimalAux f n).length ≤ d := by
  intro f
  induction f with
  | zero => intro d n h1 h2 _; omega
  | succ f' ih =>
    intro d n h1 h2 h3
    by_cases hn : n < 10
    · simpa [toDecimalAux, hn] using h1
    · have hd2 : 2 ≤ d := by
        by_contra hcon
        have hd1 : d = 1 := by omega
        rw [hd1, pow_one] at h3
        omega
      simp only [toDecimalAux, if_neg hn, List.length_append, List.length_cons,
        List.length_nil]
      have h10 : 10 ^ d = 10 ^ (d - 1) * 10 := by
        rw [← pow_succ]
        congr 1
        omega
      have hdiv : n / 10 < 10 ^ (d - 1) := by
        rw [Nat.div_lt_iff_lt_mul (by norm_num)]
        omega
      have := ih (d - 1) (n / 10) (by omega) (by omega) hdiv
      omega

theorem toDecimal_SIZE_MAX_length : (toDecimal SIZE_MAX).length = 20 := by decide

theorem toDecimal_length_le_20 (n : Nat) (h : n ≤ SIZE_MAX) :
    (toDecimal n).length ≤ 20 := by
  apply toDecimalAux_length_le 30 20 n (by norm_num) (by norm_num)
  have hm : SIZE_MAX < 10 ^ 20 := by norm_num [SIZE_MAX]
  omega

theorem pad16_eq_aux : ∀ (k : Nat) (l : List Nat),
    (16 - (l.length + 1) % 16) % 16 = k → pad16 l = l ++ List.replicate k 32 := by
  intro k
  induction k with
  | zero =>
    intro l hk
    rw [pad16, if_neg (by omega)]
    simp
  | succ k' ih =>
    intro l hk
    rw [pad16, if_pos (by omega)]
    have hnext : (16 - ((l ++ [32]).length + 1) % 16) % 16 = k' := by
      simp only [List.length_append, List.length_cons, List.length_nil]
      omega
    rw [ih (l ++ [32]) hnext]
    simp [List.replicate_succ, List.append_assoc]

theorem pad16_length (l : List Nat) :
    (pad16 l).length = l.length + (16 - (l.length + 1) % 16) % 16 := by
  rw [pad16_eq_aux ((16 - (l.length + 1) % 16) % 16) l rfl]
  simp

theorem pad16_length_mod (l : List Nat) : ((pad16 l).length + 1) % 16 = 0 := by
  rw [pad16_length]
  omega

theorem pad16_length_le (l : List Nat) (m : Nat) (h1 : l.length ≤ m)
    (h2 : (m + 1) % 16 = 0) : (pad16 l).length ≤ m := by
  rw [pad16_length]
  omega

theorem pad16_le_length (l : List Nat) : l.length ≤ (pad16 l).length := by
  rw [pad16_length]
  omega

theorem padTo_eq_aux : ∀ (k : Nat) (l : List Nat) (n : Nat),
    n - l.length = k → padTo l n = l ++ List.replicate k 32 := by
  intro k
  induction k with
  | zero =>
    intro l n hk
    rw [padTo, if_neg (by omega)]
    simp
  | succ k' ih =>
    intro l n hk
    rw [padTo, if_pos (by omega)]
    have hnext : n - (l ++ [32]).length = k' := by
      simp only [List.length_append, List.length_cons, List.length_nil]
      omega
    rw [ih (l ++ [32]) n hnext]
    simp [List.replicate_succ, List.append_assoc]

theorem padTo_length (l : List Nat) (n : Nat) :
    (padTo l n).length = max l.length n := by
  rw [padTo_eq_aux (n - l.length) l n rfl]
  simp
  omega

theorem npyDict_length (descr : List Nat) (n : Nat) :
    (npyDict descr n).length = descr.length + (toDecimal n).length + 51 := by
  have h1 : (strB "\x7b").length = 1 := by decide
  have h2 : (strB "'descr': ").length = 9 := by decide
  have h3 : (strB ", ").length = 2 := by decide
  have h4 : (strB "'fortran_order': False, ").length = 24 := by decide
  have h5 : (strB "'shape': (").length = 10 := by decide
  have h6 : (strB ",), ").length = 4 := by decide
  have h7 : (strB "\x7d").length = 1 := by decide
  simp only [npyDict, List.length_append, List.length_map, h1, h2, h3, h4, h5,
    h6, h7]
  omega

theorem npyBase_length (descr : List Nat) (n : Nat) :
    (npyBase descr n).length = descr.length + (toDecimal n).length + 61 := by
  have h5 : (strB "NUMPY").length = 5 := by decide
  simp only [npyBase, List.length_append, npyDict_length, h5, List.length_cons,
    List.length_nil]
  omega

/-- Once the header length is fixed by the construction-time write with the
maximal placeholder count, every header built for a count representable in
`std::size_t` re-pads to exactly that length plus the newline. -/
theorem buildHeader_length (descr : List Nat) (num F : Nat)
    (hF : F = (pad16 (npyBase descr SIZE_MAX)).length)
    (hnum : num ≤ SIZE_MAX) :
    (buildHeader descr F num).1.length = F + 1 ∧
      (buildHeader descr F num).2 = F := by
  have hbaseF : (npyBase descr SIZE_MAX).length ≤ F := hF ▸ pad16_le_length _
  have hFpos : ¬ F = 0 := by
    rw [npyBase_length] at hbaseF
    omega
  have hmono : (npyBase descr num).length ≤ (npyBase descr SIZE_MAX).length := by
    rw [npyBase_length, npyBase_length, toDecimal_SIZE_MAX_length]
    have := toDecimal_length_le_20 num hnum
    omega
  have hle : (pad16 (npyBase descr num)).length ≤ F := by
    apply pad16_length_le
    · omega
    · rw [hF]
      exact pad16_length_mod _
  constructor
  · simp only [buildHeader, if_neg hFpos]
    rw [List.length_set, List.length_set, List.length_append, padTo_length]
    simp only [List.length_cons, List.length_nil]
    omega
  · simp only [buildHeader, if_neg hFpos]

/-- The very first header write (fixed length still zero) produces a header
of the same byte length and records that length. -/
theorem buildHeader_first (descr : List Nat) :
    (buildHeader descr 0 SIZE_MAX).1.length =
        (pad16 (npyBase descr SIZE_MAX)).length + 1 ∧
      (buildHeader descr 0 SIZE_MAX).2 =
        (pad16 (npyBase descr SIZE_MAX)).length := by
  constructor
  · simp only [buildHeader, if_pos rfl]
    rw [List.length_set, List.length_set, List.length_append]
    simp
  · simp [buildHeader]

/-- Structure of a fixed-length header: the padded pre-newline bytes with
bytes 8 and 9 patched with the truncated 16-bit header length. -/
theorem buildHeader_as_set (descr : List Nat) (num F : Nat)
    (hF : F = (pad16 (npyBase descr SIZE_MAX)).length)
    (hnum : num ≤ SIZE_MAX) :
    (buildHeader descr F num).1 =
      ((npyBase descr num ++
          List.replicate (F - (npyBase descr num).length) 32 ++ [10]).set 8
            ((F + 1 - 10) % 256)).set 9 (((F + 1 - 10) >>> 8) % 256) := by
  have hbaseF : (npyBase descr SIZE_MAX).length ≤ F := hF ▸ pad16_le_length _
  have hFpos : ¬ F = 0 := by
    rw [npyBase_length] at hbaseF
    omega
  have hmono : (npyBase descr num).length ≤ (npyBase descr SIZE_MAX).length := by
    rw [npyBase_length, npyBase_length, toDecimal_SIZE_MAX_length]
    have := toDecimal_length_le_20 num hnum
    omega
  have hle : (pad16 (npyBase descr num)).length ≤ F := by
    apply pad16_length_le
    · omega
    · rw [hF]
      exact pad16_length_mod _
  have hpadded2 : padTo (pad16 (npyBase descr num)) F =
      npyBase descr num ++
        List.replicate (F - (npyBase descr num).length) 32 := by
    rw [pad16_eq_aux ((16 - ((npyBase descr num).length + 1) % 16) % 16) _ rfl,
      padTo_eq_aux (F - ((npyBase descr num).length +
        (16 - ((npyBase descr num).length + 1) % 16) % 16)) _ F
        (by simp [List.length_append, List.length_replicate]),
      List.append_assoc, ← List.replicate_add]
    have hcount : (16 - ((npyBase descr num).length + 1) % 16) % 16 +
        (F - ((npyBase descr num).length +
          (16 - ((npyBase descr num).length + 1) % 16) % 16)) =
        F - (npyBase descr num).length := by
      rw [pad16_length] at hle
      omega
    rw [hcount]
  have hfulllen : (padTo (pad16 (npyBase descr num)) F ++ [10]).length = F + 1 := by
    rw [List.length_append, padTo_length]
    simp only [List.length_cons, List.length_nil]
    omega
  simp only [buildHeader, if_neg hFpos]
  rw [hfulllen, hpadded2]

theorem writeAt_from_nil (data : List Nat) : writeAt [] 0 data = data := by
  simp [writeAt]

theorem writeAt_overwrite (file data : List Nat)
    (h : data.length ≤ file.length) :
    writeAt file 0 data = data ++ file.drop data.length := by
  simp [writeAt]

theorem writeAt_at_end (file : List Nat) (pos : Nat) (data : List Nat)
    (h : pos = file.length) : writeAt file pos data = file ++ data := by
  subst h
  unfold writeAt
  rw [List.take_length, List.drop_eq_nil_of_le (by omega)]
  simp

/-- The two construction-time header writes: the fixed header length is the
padded size for the maximal count, the file consists of exactly the header
re-written for count zero, and the put position sits right after it. -/
theorem npyOpen_spec (fields : List NpyField) :
    (npyOpen fields).fixedHeaderLength =
        (pad16 (npyBase (dtypes_description fields) SIZE_MAX)).length ∧
      (npyOpen fields).file = (buildHeader (dtypes_description fields)
        (pad16 (npyBase (dtypes_description fields) SIZE_MAX)).length 0).1 ∧
      (npyOpen fields).pos =
        (pad16 (npyBase (dtypes_description fields) SIZE_MAX)).length + 1 ∧
      (npyOpen fields).numTuples = 0 := by
  have hfirst := buildHeader_first (dtypes_description fields)
  rcases hb1 : buildHeader (dtypes_description fields) 0 SIZE_MAX with ⟨hdr1, f1⟩
  rw [hb1] at hfirst
  simp only at hfirst
  have hsecond := buildHeader_length (dtypes_description fields) 0 f1
    (by rw [hfirst.2]) (Nat.zero_le _)
  rcases hb2 : buildHeader (dtypes_description fields) f1 0 with ⟨hdr2, f2⟩
  rw [hb2] at hsecond
  simp only at hsecond
  have hopen : npyOpen fields =
      { file := writeAt (writeAt [] 0 hdr1) 0 hdr2, pos := hdr2.length,
        fixedHeaderLength := f2, numTuples := 0 } := by
    unfold npyOpen npyWriteHeader
    rw [hb1]
    simp only
    rw [hb2]
  rw [hopen]
  have hwrite : writeAt (writeAt [] 0 hdr1) 0 hdr2 = hdr2 := by
    rw [writeAt_from_nil, writeAt_overwrite hdr1 hdr2 (by omega)]
    rw [show hdr2.length = hdr1.length by omega]
    rw [List.drop_length]
    simp
  refine ⟨by simp [hsecond.2, hfirst.2], ?_, ?_, rfl⟩
  · simp only [hwrite]
    rw [← hfirst.2, hb2]
  · simp only
    omega

/-- `write_record` appends the record's field bytes, in order and with no
padding, at the end of the file. -/
theorem write_record_spec :
    ∀ (flds : List (List Nat)) (s : NpyState), s.pos = s.file.length →
      (write_record s flds).file = s.file ++ flds.flatten ∧
        (write_record s flds).pos = (write_record s flds).file.length ∧
        (write_record s flds).fixedHeaderLength = s.fixedHeaderLength ∧
        (write_record s flds).numTuples = s.numTuples := by
  intro flds
  induction flds with
  | nil =>
    intro s h
    refine ⟨by simp [write_record], by simp [write_record, h], rfl, rfl⟩
  | cons b rest ih =>
    intro s h
    have hstep : write_record s (b :: rest) = write_record
        { s with file := s.file ++ b, pos := s.pos + b.length } rest := by
      unfold write_record
      simp only [List.foldl_cons, writeAt_at_end s.file s.pos b h]
    have hpos : ({ s with file := s.file ++ b, pos := s.pos + b.length } :
        NpyState).pos =
        ({ s with file := s.file ++ b, pos := s.pos + b.length } :
          NpyState).file.length := by
      simp only [List.length_append]
      omega
    have hr := ih { s with file := s.file ++ b, pos := s.pos + b.length } hpos
    rw [hstep]
    refine ⟨?_, hr.2.1, hr.2.2.1, hr.2.2.2⟩
    rw [hr.1]
    simp

/-- Folding `append` over a list of records appends all their bytes and
applies the `std::size_t` increment once per record. -/
theorem npy_fold_spec :
    ∀ (rs : List (List (List Nat))) (s : NpyState), s.pos = s.file.length →
      (rs.foldl npyAppend s).file = s.file ++ (rs.map List.flatten).flatten ∧
        (rs.foldl npyAppend s).pos = (rs.foldl npyAppend s).file.length ∧
        (rs.foldl npyAppend s).fixedHeaderLength = s.fixedHeaderLength ∧
        (rs.foldl npyAppend s).numTuples =
          rs.foldl (fun n _ => (n + 1) % SIZE_MOD) s.numTuples := by
  intro rs
  induction rs with
  | nil => intro s h; refine ⟨by simp, h, rfl, rfl⟩
  | cons r rest ih =>
    intro s h
    have hwr := write_record_spec r s h
    have happ : npyAppend s r =
        { write_record s r with
            numTuples := ((write_record s r).numTuples + 1) % SIZE_MOD } := rfl
    have hpos2 : (npyAppend s r).pos = (npyAppend s r).file.length := by
      rw [happ]
      exact hwr.2.1
    have hr := ih (npyAppend s r) hpos2
    simp only [List.foldl_cons]
    refine ⟨?_, hr.2.1, ?_, ?_⟩
    · rw [hr.1, happ]
      simp only
      rw [hwr.1]
      simp
    · rw [hr.2.2.1, happ]
      simp only
      exact hwr.2.2.1
    · rw [hr.2.2.2, happ]
      simp only
      rw [hwr.2.2.2]

theorem foldl_mod_count :
    ∀ (rs : List (List (List Nat))) (n : Nat), n + rs.length ≤ SIZE_MAX →
      rs.foldl (fun m _ => (m + 1) % SIZE_MOD) n = n + rs.length := by
  intro rs
  induction rs with
  | nil => intro n _; simp
  | cons r rest ih =>
    intro n h
    have hS : SIZE_MAX = 18446744073709551615 := rfl
    have hM : SIZE_MOD = 18446744073709551616 := rfl
    simp only [List.length_cons] at h
    simp only [List.foldl_cons, List.length_cons]
    rw [Nat.mod_eq_of_lt (by omega), ih (n + 1) (by omega)]
    omega

theorem npy_data_length (fields : List NpyField) :
    ∀ rs : List (List (List Nat)),
      (∀ r ∈ rs, r.map List.length = fields.map NpyField.width) →
      ((rs.map List.flatten).flatten).length =
        rs.length * npyRecordSize fields := by
  intro rs
  induction rs with
  | nil => intro _; simp
  | cons r rest ih =>
    intro h
    have hr : r.flatten.length = npyRecordSize fields := by
      rw [List.length_join, h r (by simp), npyRecordSize]
    simp only [List.map_cons, List.flatten_cons, List.length_append,
      List.length_cons]
    rw [hr, ih (fun q hq => h q (by simp [hq]))]
    ring

/-- C2: the header byte length is pinned by the two construction-time
writes — the placeholder-maximum write and the immediate zero rewrite have
the same length, which is recorded in `m_fixed_header_length`, the file
after construction is exactly one such header — and rebuilding the header
for any row count up to `SIZE_MAX` re-pads to exactly that length. -/
theorem npy_header_length_fixed (fields : List NpyField) (K : Nat)
    (hK : K ≤ SIZE_MAX) :
    (buildHeader (dtypes_description fields) 0 SIZE_MAX).1.length =
        (npyOpen fields).fixedHeaderLength + 1 ∧
      (buildHeader (dtypes_description fields)
          (npyOpen fields).fixedHeaderLength 0).1.length =
        (npyOpen fields).fixedHeaderLength + 1 ∧
      (buildHeader (dtypes_description fields)
          (npyOpen fields).fixedHeaderLength K).1.length =
        (npyOpen fields).fixedHeaderLength + 1 ∧
      (npyOpen fields).file.length = (npyOpen fields).fixedHeaderLength + 1 := by
  have hopen := npyOpen_spec fields
  rw [hopen.1, hopen.2.1]
  exact ⟨(buildHeader_first _).1,
    (buildHeader_length _ 0 _ rfl (Nat.zero_le _)).1,
    (buildHeader_length _ K _ rfl hK).1,
    (buildHeader_length _ 0 _ rfl (Nat.zero_le _)).1⟩

/-- Witness for C2 at a one-field record and row count 5. -/
theorem npy_header_length_fixed_witness :
    (buildHeader (dtypes_description [⟨strB "x", strB "<i4", 4⟩]) 0
          SIZE_MAX).1.length =
        (npyOpen [⟨strB "x", strB "<i4", 4⟩]).fixedHeaderLength + 1 ∧
      (buildHeader (dtypes_description [⟨strB "x", strB "<i4", 4⟩])
          (npyOpen [⟨strB "x", strB "<i4", 4⟩]).fixedHeaderLength 0).1.length =
        (npyOpen [⟨strB "x", strB "<i4", 4⟩]).fixedHeaderLength + 1 ∧
      (buildHeader (dtypes_description [⟨strB "x", strB "<i4", 4⟩])
          (npyOpen [⟨strB "x", strB "<i4", 4⟩]).fixedHeaderLength 5).1.length =
        (npyOpen [⟨strB "x", strB "<i4", 4⟩]).fixedHeaderLength + 1 ∧
      (npyOpen [⟨strB "x", strB "<i4", 4⟩]).file.length =
        (npyOpen [⟨strB "x", strB "<i4", 4⟩]).fixedHeaderLength + 1 :=
  npy_header_length_fixed [⟨strB "x", strB "<i4", 4⟩] 5 (by decide)

/-- The dictionary text of every fixed-length header contains the literal
`'shape': (N,)` for its row count `N`. -/
theorem buildHeader_shape (descr : List Nat) (F num : Nat)
    (hF : F = (pad16 (npyBase descr SIZE_MAX)).length)
    (hnum : num ≤ SIZE_MAX) :
    ∃ u v, (buildHeader descr F num).1 =
      u ++ (strB "'shape': (" ++ (toDecimal num).map Char.toNat ++
        strB ",)") ++ v := by
  rw [buildHeader_as_set descr num F hF hnum]
  have hN : strB "NUMPY" = [78, 85, 77, 80, 89] := by decide
  have hsplit : strB ",), " = strB ",)" ++ strB ", " := by decide
  refine ⟨[147, 78, 85, 77, 80, 89, 1, 0, (F + 1 - 10) % 256,
      ((F + 1 - 10) >>> 8) % 256] ++ strB "\x7b" ++ strB "'descr': " ++
      descr ++ strB ", " ++ strB "'fortran_order': False, ",
    strB ", " ++ strB "\x7d" ++
      List.replicate (F - (npyBase descr num).length) 32 ++ [10], ?_⟩
  simp [npyBase, npyDict, hN, hsplit, List.set, List.append_assoc]

/-- C1: constructing the npy writer, appending `K` records whose fields have
the declared byte widths, and closing produces a file that is exactly the
fixed-length header rebuilt for row count `K` — whose dictionary text
contains `'shape': (K,)` — followed by the `K` records' field bytes
concatenated in field order with no padding, so the data section is exactly
`K` times the sum of the field byte widths. -/
theorem npy_append_close (fields : List NpyField) (rs : List (List (List Nat)))
    (hK : rs.length ≤ SIZE_MAX)
    (hshape : ∀ r ∈ rs, r.map List.length = fields.map NpyField.width) :
    (npyClose fields (rs.foldl npyAppend (npyOpen fields))).file =
        (buildHeader (dtypes_description fields)
          (npyOpen fields).fixedHeaderLength rs.length).1 ++
          (rs.map List.flatten).flatten ∧
      (npyClose fields (rs.foldl npyAppend (npyOpen fields))).file.length =
        ((npyOpen fields).fixedHeaderLength + 1) +
          rs.length * npyRecordSize fields ∧
      ∃ u v, (npyClose fields (rs.foldl npyAppend (npyOpen fields))).file =
        u ++ (strB "'shape': (" ++ (toDecimal rs.length).map Char.toNat ++
          strB ",)") ++ v := by
  have hopen := npyOpen_spec fields
  have hlen0 := buildHeader_length (dtypes_description fields) 0
    (pad16 (npyBase (dtypes_description fields) SIZE_MAX)).length rfl
    (Nat.zero_le _)
  have hpos0 : (npyOpen fields).pos = (npyOpen fields).file.length := by
    rw [hopen.2.1, hopen.2.2.1, hlen0.1]
  have hfold := npy_fold_spec rs (npyOpen fields) hpos0
  have hcount : (rs.foldl npyAppend (npyOpen fields)).numTuples = rs.length := by
    rw [hfold.2.2.2, hopen.2.2.2, foldl_mod_count rs 0 (by omega)]
    omega
  have hfix : (rs.foldl npyAppend (npyOpen fields)).fixedHeaderLength =
      (pad16 (npyBase (dtypes_description fields) SIZE_MAX)).length := by
    rw [hfold.2.2.1, hopen.1]
  have hlenK := buildHeader_length (dtypes_description fields) rs.length
    (pad16 (npyBase (dtypes_description fields) SIZE_MAX)).length rfl hK
  rcases hbK : buildHeader (dtypes_description fields)
    (pad16 (npyBase (dtypes_description fields) SIZE_MAX)).length rs.length
    with ⟨hdrK, fK⟩
  rw [hbK] at hlenK
  simp only at hlenK
  have hclose : npyClose fields (rs.foldl npyAppend (npyOpen fields)) =
      { rs.foldl npyAppend (npyOpen fields) with
          file := writeAt (rs.foldl npyAppend (npyOpen fields)).file 0 hdrK
          pos := hdrK.length
          fixedHeaderLength := fK } := by
    unfold npyClose npyWriteHeader
    rw [hcount, hfix, hbK]
    simp [hcount]
  have hfile0 : (rs.foldl npyAppend (npyOpen fields)).file =
      (buildHeader (dtypes_description fields)
        (pad16 (npyBase (dtypes_description fields) SIZE_MAX)).length 0).1 ++
        (rs.map List.flatten).flatten := by
    rw [hfold.1, hopen.2.1]
  have hwriteK : writeAt (rs.foldl npyAppend (npyOpen fields)).file 0 hdrK =
      hdrK ++ (rs.map List.flatten).flatten := by
    rw [hfile0, writeAt_overwrite _ _ (by
      rw [List.length_append, hlenK.1, hlen0.1]
      omega)]
    rw [show hdrK.length = ((buildHeader (dtypes_description fields)
      (pad16 (npyBase (dtypes_description fields) SIZE_MAX)).length 0).1).length
      by rw [hlenK.1, hlen0.1]]
    rw [List.drop_left]
  have hmain : (npyClose fields (rs.foldl npyAppend (npyOpen fields))).file =
      hdrK ++ (rs.map List.flatten).flatten := by
    rw [hclose]
    simp only
    exact hwriteK
  refine ⟨?_, ?_, ?_⟩
  · rw [hmain, hopen.1, hbK]
  · rw [hmain, List.length_append, hlenK.1, hopen.1,
      npy_data_length fields rs hshape]
  · have hshapeinfix := buildHeader_shape (dtypes_description fields)
      (pad16 (npyBase (dtypes_description fields) SIZE_MAX)).length rs.length
      rfl hK
    rcases hshapeinfix with ⟨u, v, huv⟩
    rw [hbK] at huv
    simp only at huv
    exact ⟨u, v ++ (rs.map List.flatten).flatten, by
      rw [hmain, huv]
      simp [List.append_assoc]⟩

/-- Witness for C1: two records of one 4-byte field. -/
theorem npy_append_close_witness :
    (npyClose [⟨strB "x", strB "<i4", 4⟩]
        ([[[1, 2, 3, 4]], [[5, 6, 7, 8]]].foldl npyAppend
          (npyOpen [⟨strB "x", strB "<i4", 4⟩]))).file =
        (buildHeader (dtypes_description [⟨strB "x", strB "<i4", 4⟩])
          (npyOpen [⟨strB "x", strB "<i4", 4⟩]).fixedHeaderLength
          ([[[1, 2, 3, 4]], [[5, 6, 7, 8]]] :
            List (List (List Nat))).length).1 ++
          (([[[1, 2, 3, 4]], [[5, 6, 7, 8]]] :
            List (List (List Nat))).map List.flatten).flatten ∧
      (npyClose [⟨strB "x", strB "<i4", 4⟩]
        ([[[1, 2, 3, 4]], [[5, 6, 7, 8]]].foldl npyAppend
          (npyOpen [⟨strB "x", strB "<i4", 4⟩]))).file.length =
        ((npyOpen [⟨strB "x", strB "<i4", 4⟩]).fixedHeaderLength + 1) +
          ([[[1, 2, 3, 4]], [[5, 6, 7, 8]]] :
            List (List (List Nat))).length *
            npyRecordSize [⟨strB "x", strB "<i4", 4⟩] ∧
      ∃ u v, (npyClose [⟨strB "x", strB "<i4", 4⟩]
        ([[[1, 2, 3, 4]], [[5, 6, 7, 8]]].foldl npyAppend
          (npyOpen [⟨strB "x", strB "<i4", 4⟩]))).file =
        u ++ (strB "'shape': (" ++
          (toDecimal ([[[1, 2, 3, 4]], [[5, 6, 7, 8]]] :
            List (List (List Nat))).length).map Char.toNat ++
          strB ",)") ++ v :=
  npy_append_close [⟨strB "x", strB "<i4", 4⟩]
    [[[1, 2, 3, 4]], [[5, 6, 7, 8]]] (by decide) (by decide)

/-- Fully explicit form of a fixed-length header: ten leading bytes with
the patched length bytes in place, then dictionary, padding, newline. -/
theorem buildHeader_explicit (descr : List Nat) (num F : Nat)
    (hF : F = (pad16 (npyBase descr SIZE_MAX)).length)
    (hnum : num ≤ SIZE_MAX) :
    (buildHeader descr F num).1 =
      [147, 78, 85, 77, 80, 89, 1, 0, (F + 1 - 10) % 256,
        ((F + 1 - 10) >>> 8) % 256] ++
        (npyDict descr num ++
          List.replicate (F - (npyBase descr num).length) 32 ++ [10]) := by
  have hN : strB "NUMPY" = [78, 85, 77, 80, 89] := by decide
  rw [buildHeader_as_set descr num F hF hnum]
  simp [npyBase, hN, List.set, List.append_assoc]

/-- C8 (amended): every header the npy writer produces is the 6-byte magic
`\x93NUMPY`, version bytes `(1, 0)`, two bytes holding the low byte and the
second byte of the header length counted from byte 10 through the trailing
newline, the ASCII dictionary text with `descr`, `fortran_order: False` and
the row-count `shape` 1-tuple, space padding that makes the data offset a
multiple of 16, and a final newline; bytes 8–9 read as a little-endian
`uint16` equal that header length whenever it fits in 16 bits (otherwise
they store it reduced modulo `2 ^ 16`). -/
theorem npy_header_format (fields : List NpyField) (num : Nat)
    (hnum : num ≤ SIZE_MAX) :
    (∃ p, npyHeaderAt fields num =
        [0x93] ++ strB "NUMPY" ++ [0x01, 0x00] ++
          [((npyHeaderAt fields num).length - 10) % 256,
            (((npyHeaderAt fields num).length - 10) >>> 8) % 256] ++
          npyDict (dtypes_description fields) num ++
          List.replicate p 32 ++ [10]) ∧
      (npyHeaderAt fields num).length % 16 = 0 ∧
      ((npyHeaderAt fields num).length - 10 < 65536 →
        (npyHeaderAt fields num).getD 8 0 +
            256 * (npyHeaderAt fields num).getD 9 0 =
          (npyHeaderAt fields num).length - 10) := by
  have hopen := npyOpen_spec fields
  unfold npyHeaderAt
  rw [hopen.1]
  have hlen := (buildHeader_length (dtypes_description fields) num
    (pad16 (npyBase (dtypes_description fields) SIZE_MAX)).length rfl hnum).1
  have hform := buildHeader_explicit (dtypes_description fields) num
    (pad16 (npyBase (dtypes_description fields) SIZE_MAX)).length rfl hnum
  have hN : strB "NUMPY" = [78, 85, 77, 80, 89] := by decide
  refine ⟨?_, ?_, ?_⟩
  · refine ⟨(pad16 (npyBase (dtypes_description fields) SIZE_MAX)).length -
      (npyBase (dtypes_description fields) num).length, ?_⟩
    rw [hlen, hform]
    simp [hN, List.append_assoc]
  · rw [hlen]
    exact pad16_length_mod _
  · intro hfit
    rw [hlen] at hfit
    rw [hlen, hform]
    have hshift : ((pad16 (npyBase (dtypes_description fields)
        SIZE_MAX)).length + 1 - 10) >>> 8 =
        ((pad16 (npyBase (dtypes_description fields)
          SIZE_MAX)).length + 1 - 10) / 256 := by
      rw [Nat.shiftRight_eq_div_pow]
    simp only [List.cons_append, List.nil_append, List.getD_cons_succ,
      List.getD_cons_zero, hshift]
    omega

/-- Witness for the amended C8 at a one-field record and row count 3. -/
theorem npy_header_format_witness :
    (∃ p, npyHeaderAt [⟨strB "x", strB "<i4", 4⟩] 3 =
        [0x93] ++ strB "NUMPY" ++ [0x01, 0x00] ++
          [((npyHeaderAt [⟨strB "x", strB "<i4", 4⟩] 3).length - 10) % 256,
            (((npyHeaderAt [⟨strB "x", strB "<i4", 4⟩] 3).length - 10) >>> 8)
              % 256] ++
          npyDict (dtypes_description [⟨strB "x", strB "<i4", 4⟩]) 3 ++
          List.replicate p 32 ++ [10]) ∧
      (npyHeaderAt [⟨strB "x", strB "<i4", 4⟩] 3).length % 16 = 0 ∧
      ((npyHeaderAt [⟨strB "x", strB "<i4", 4⟩] 3).length - 10 < 65536 →
        (npyHeaderAt [⟨strB "x", strB "<i4", 4⟩] 3).getD 8 0 +
            256 * (npyHeaderAt [⟨strB "x", strB "<i4", 4⟩] 3).getD 9 0 =
          (npyHeaderAt [⟨strB "x", strB "<i4", 4⟩] 3).length - 10) :=
  npy_header_format [⟨strB "x", strB "<i4", 4⟩] 3 (by decide)

set_option maxRecDepth 4000 in
/-- C8 counterexample: for a record type with a 65600-byte field name the
header length (bytes 10 through the newline) is 65686, which does not fit
in 16 bits; the `char` casts in `write_header` store it modulo `2 ^ 16`, so
bytes 8–9 read back as 150, not 65686 — the claimed uint16 equality fails
on the header written at construction. -/
theorem npy_header_uint16_truncated :
    (npyOpen [⟨List.replicate 65600 120, strB "<i4", 4⟩]).file.getD 8 0 +
        256 * (npyOpen [⟨List.replicate 65600 120,
          strB "<i4", 4⟩]).file.getD 9 0 ≠
      (npyOpen [⟨List.replicate 65600 120, strB "<i4", 4⟩]).file.length - 10 := by
  have hopen := npyOpen_spec [⟨List.replicate 65600 120, strB "<i4", 4⟩]
  have hdescr : (dtypes_description
      [⟨List.replicate 65600 120, strB "<i4", 4⟩]).length = 65613 := by
    have e1 : (strB "[").length = 1 := by decide
    have e2 : (strB "]").length = 1 := by decide
    have e3 : (strB "('").length = 2 := by decide
    have e4 : (strB "', '").length = 4 := by decide
    have e5 : (strB "')").length = 2 := by decide
    have e6 : (strB "<i4").length = 3 := by decide
    simp only [dtypes_description, descrList, List.length_append, e1, e2, e3,
      e4, e5, e6, List.length_replicate]
  have hbase0 : (npyBase (dtypes_description
      [⟨List.replicate 65600 120, strB "<i4", 4⟩]) SIZE_MAX).length = 65694 := by
    rw [npyBase_length, hdescr, toDecimal_SIZE_MAX_length]
  have hpad : (pad16 (npyBase (dtypes_description
      [⟨List.replicate 65600 120, strB "<i4", 4⟩]) SIZE_MAX)).length = 65695 := by
    rw [pad16_length, hbase0]
  have hlen := (buildHeader_length (dtypes_description
    [⟨List.replicate 65600 120, strB "<i4", 4⟩]) 0
    (pad16 (npyBase (dtypes_description
      [⟨List.replicate 65600 120, strB "<i4", 4⟩]) SIZE_MAX)).length rfl
    (Nat.zero_le _)).1
  have hform := buildHeader_explicit (dtypes_description
    [⟨List.replicate 65600 120, strB "<i4", 4⟩]) 0
    (pad16 (npyBase (dtypes_description
      [⟨List.replicate 65600 120, strB "<i4", 4⟩]) SIZE_MAX)).length rfl
    (Nat.zero_le _)
  rw [hopen.2.1, hlen, hform, hpad]
  simp only [List.cons_append, List.nil_append, List.getD_cons_succ,
    List.getD_cons_zero]
  decide

end Dfe
